import Mathlib

/-!
# Mancy `src/common/ReplOutput.js`: the value-to-display transformer

A shallow embedding of the formatters of `ReplOutputType`, of the result
wrappers `None` / `Some` and of `ReplOutput.readProperty`, followed by the
properties proved about them.

Conventions of the embedding

* A React element is a record (or a constructor) of its props.
* JavaScript numbers that are array lengths and indices are `Nat`; the
  arithmetic of the labels is done in `Int`, so that `x - 1` is never truncated.
* `Array.prototype.splice(0, range)` returns `arr.take range` and leaves
  `arr.drop range` in place.
* A call that does not return is `none` (unbounded recursion) or
  `Except.error e` (the exception `e` is raised).
* A runtime value is described by what the source can observe of it: the
  answers of the type tests and the outcome of each property read, which is a
  value or a thrown exception. Proxies and overridden `toString` methods are
  left out.
* The call stack is unbounded, except in `arrayWithin`, which takes the number
  of nested calls of `tokenize` that fit and raises when a pass needs more.
* Where a claim is about mutation, arrays live in a store addressed by
  references, `_.clone` allocates and `splice` updates in place; the store
  version of the chunker is proved to compute what the pure one computes.
* What the file imports from other modules (`os.EOL`, `ReplCommon.highlight`,
  `ReplDOM.toHTMLBody`, the text conversions of the language) is a field of
  `Host`, a parameter of the formatters that need it.
-/

namespace ReplOutput

/-! ## Array chunker (`ReplOutputType.array`) -/

/-- Props of one `<ReplOutputArray .../>` element whose `array` prop holds
items of type `β`. The `length` prop is only passed for the root. -/
structure ReplOutputArray (β : Type) where
  array : List β
  label : String
  start : Int
  noIndex : Bool
  length : Option Nat
deriving DecidableEq, Repr

/-- The text `['[', lo, ' … ', hi, ']'].join('')`. -/
def rangeLabel (lo hi : Int) : String :=
  String.join ["[", toString lo, " … ", toString hi, "]"]

/-- The text `['Array[', n, ']'].join('')`. -/
def arrayLabel (n : Nat) : String :=
  String.join ["Array[", toString n, "]"]

/-- The inner function `tokenize(arr, result, range, mul)` of
`ReplOutputType.array`, with the recursion depth bounded by `fuel`.
`result` is the accumulator the source pushes to; the returned list is its
final content. -/
def tokenizeFuel {β : Type} :
    Nat → List β → List (ReplOutputArray β) → Nat → Nat → Option (List (ReplOutputArray β))
  | 0, _, _, _, _ => none
  | fuel + 1, arr, result, range, mul =>
    let len := result.length
    if arr.length < range then
      let label :=
        if result.length ≠ 0 then
          rangeLabel ((len * range * mul : Nat) : Int)
            (((len * range * mul : Nat) : Int) - 1 + ((arr.length % range : Nat) : Int))
        else arrayLabel arr.length
      some (result ++ [⟨arr, label, ((len * range * mul : Nat) : Int), false, none⟩])
    else
      let label := rangeLabel ((len * range * mul : Nat) : Int)
        ((((len + 1) * range * mul : Nat) : Int) - 1)
      tokenizeFuel fuel (arr.drop range)
        (result ++ [⟨arr.take range, label, ((len * range * mul : Nat) : Int), false, none⟩])
        range mul

/-- The function `tokenize(arr, result, range, mul = 1)`: every recursive call
removes `range` items, so `arr.length + 1` calls suffice whenever `range > 0`;
with `range = 0` the source recurses without end and the result is `none`. -/
def tokenize {β : Type} (arr : List β) (result : List (ReplOutputArray β))
    (range : Nat) (mul : Nat := 1) : Option (List (ReplOutputArray β)) :=
  tokenizeFuel (arr.length + 1) arr result range mul

/-- What `ReplOutputType.array` returns. `arrays` holds leaf chunks after one
pass of `tokenize` and groups of leaf chunks after the second pass; the
function returns either `arrays` itself or a root element wrapping it. -/
inductive ArrayOutput (α : Type) where
  /-- Outcome `return arrays` when only the first pass ran. -/
  | chunks (arrays : List (ReplOutputArray α))
  /-- Outcome `return arrays` after the second pass. -/
  | groups (arrays : List (ReplOutputArray (ReplOutputArray α)))
  /-- A root element over the leaf chunks of the first pass. -/
  | root (r : ReplOutputArray (ReplOutputArray α))
  /-- A root element over the groups of the second pass. -/
  | rootOfGroups (r : ReplOutputArray (ReplOutputArray (ReplOutputArray α)))
deriving DecidableEq, Repr

/-- The formatter `ReplOutputType.array`. `_.clone(a)` is a shallow copy: the
same items in the same order. -/
def ReplOutputType.array {α : Type} (a : List α) : Option (ArrayOutput α) := do
  let arr := a
  let arrays ← tokenize arr [] 100
  if arrays.length > 100 then
    let arr1000 ← tokenize arrays [] 100 100
    if arr1000.length > 1 then
      pure (.rootOfGroups ⟨arr1000, arrayLabel a.length, 0, true, some a.length⟩)
    else
      pure (.groups arr1000)
  else
    if arrays.length > 1 then
      pure (.root ⟨arrays, arrayLabel a.length, 0, true, some a.length⟩)
    else
      pure (.chunks arrays)

/-- Closed form of the chunk that `tokenize` pushes at position `base + j`
when it starts on `arr` with `base` chunks already in `result`. -/
def chunkAt {β : Type} (arr : List β) (base range mul j : Nat) : ReplOutputArray β where
  array := (arr.drop (j * range)).take range
  label :=
    if j < arr.length / range then
      rangeLabel (((base + j) * range * mul : Nat) : Int)
        ((((base + j + 1) * range * mul : Nat) : Int) - 1)
    else if base + j ≠ 0 then
      rangeLabel (((base + j) * range * mul : Nat) : Int)
        ((((base + j) * range * mul : Nat) : Int) - 1 + ((arr.length % range : Nat) : Int))
    else arrayLabel arr.length
  start := (((base + j) * range * mul : Nat) : Int)
  noIndex := false
  length := none

/-- Closed form of the leaf chunks of the first pass `tokenize(arr, arrays, 100)`. -/
def leafChunks {α : Type} (a : List α) : List (ReplOutputArray α) :=
  (List.range (a.length / 100 + 1)).map (chunkAt a 0 100 1)

/-- Closed form of the groups of the second pass `tokenize(arrays, arr1000, 100, 100)`. -/
def groupChunks {α : Type} (a : List α) : List (ReplOutputArray (ReplOutputArray α)) :=
  (List.range ((leafChunks a).length / 100 + 1)).map (chunkAt (leafChunks a) 0 100 100)

/-- What one group under a root of groups shows and what it holds: its label
and start index, the number of its leaf chunks, the number of original
elements in them, and the first and the last of these elements. -/
structure GroupSummary (α : Type) where
  label : String
  start : Int
  chunks : Nat
  items : Nat
  first : Option α
  last : Option α
deriving DecidableEq, Repr

/-- The summary of one group: the first (last) element under it is the first
(last) element of its first (last) leaf chunk that is not empty. -/
def groupSummary {α : Type} (g : ReplOutputArray (ReplOutputArray α)) : GroupSummary α where
  label := g.label
  start := g.start
  chunks := g.array.length
  items := (g.array.map (fun c => c.array.length)).sum
  first := (g.array.filterMap (fun c => c.array.head?)).head?
  last := (g.array.filterMap (fun c => c.array.getLast?)).getLast?

/-- The summary of every group under a root of groups (empty for the other
outcomes). -/
def ArrayOutput.groupSummaries {α : Type} : ArrayOutput α → List (GroupSummary α)
  | .rootOfGroups r => r.array.map groupSummary
  | _ => []

/-- Number of direct children of every node below the root: of each group
(if the second pass ran) and of each leaf chunk. -/
def ArrayOutput.belowRootCounts {α : Type} : ArrayOutput α → List Nat
  | .chunks cs => cs.map (fun c => c.array.length)
  | .groups gs =>
    gs.map (fun g => g.array.length) ++ gs.flatMap (fun g => g.array.map (fun c => c.array.length))
  | .root r => r.array.map (fun c => c.array.length)
  | .rootOfGroups r =>
    r.array.map (fun g => g.array.length)
      ++ r.array.flatMap (fun g => g.array.map (fun c => c.array.length))

/-- Number of direct children of every node of the returned tree: of the root
(if there is one) and of every node below it. -/
def ArrayOutput.childCounts {α : Type} : ArrayOutput α → List Nat
  | .chunks cs => ArrayOutput.belowRootCounts (.chunks cs)
  | .groups gs => ArrayOutput.belowRootCounts (.groups gs)
  | .root r => r.array.length :: ArrayOutput.belowRootCounts (.root r)
  | .rootOfGroups r => r.array.length :: ArrayOutput.belowRootCounts (.rootOfGroups r)

/-! ## Values of the evaluated program -/

/-- A JavaScript number: one of the three non-finite values, or a finite value.
Finite values are rationals; every finite double is one, and `-0` is not
told apart from `0` (the source does not tell them apart either). -/
inductive JSNumber where
  | nan
  | posInf
  | negInf
  | finite (q : ℚ)
deriving DecidableEq

/-- The abstract operation `ToInt32` of the language: truncate toward zero,
reduce modulo `2^32`, read the result as a signed 32-bit integer; the
non-finite values give `0`. -/
def JSNumber.toInt32 : JSNumber → Int
  | .finite q =>
    let int := Int.sign q.num * ((q.num.natAbs / q.den : Nat) : Int)
    let int32bit := int % 4294967296
    if int32bit ≥ 2147483648 then int32bit - 4294967296 else int32bit
  | _ => 0

/-- The test `_.isFinite(n)` on a number. -/
def JSNumber.isFinite : JSNumber → Bool
  | .finite _ => true
  | _ => false

/-- The comparison `x === n` of a 32-bit integer `x` with a number `n`. -/
def JSNumber.strictEqInt (x : Int) : JSNumber → Bool
  | .finite q => decide ((x : ℚ) = q)
  | _ => false

/-- What `Object.prototype.toString`, `Array.isArray` and `Buffer.isBuffer`
tell about an object; the lodash predicates `_.isRegExp`, `_.isNumber`,
`_.isBoolean`, `_.isString` and `_.isError` are read off it. -/
inductive ObjectKind where
  | plain
  | array
  | regexp
  | numberObject (n : JSNumber)
  | booleanObject (b : Bool)
  | stringObject (s : String)
  | error
  | buffer
deriving DecidableEq

/-- The answers of the `instanceof` tests the source makes on an object. -/
structure ObjectFlags where
  instanceOfPromise : Bool
  instanceOfBabelPromise : Bool
  instanceOfError : Bool
deriving DecidableEq

/-- A runtime value. An object carries its kind, its indexed elements (for an
array), its `instanceof` answers, what the debug mirror reports when the
object is a native promise (`status`, settled value), and its properties in
order: name, whether the property is an own property, and what reading it
does (`.ok v`: yields `v`; `.error e`: the accessor throws `e`). -/
inductive Value where
  | undefined
  | null
  | boolean (b : Bool)
  | number (n : JSNumber)
  | string (s : String)
  | symbol (description : String)
  | function (source : String)
  | object (kind : ObjectKind) (elements : List Value) (flags : ObjectFlags)
      (mirror : Option (String × Value)) (props : List (String × Bool × Except Value Value))

/-- The `TypeError` the engine throws when a property of `undefined` or `null`
is read, or when something that is not a function is called. -/
def typeError : Value :=
  .object .error [] ⟨false, false, true⟩ none
    [("name", false, .ok (.string "TypeError"))]

/-- The `RangeError` the engine throws when the call stack is exhausted. -/
def rangeError : Value :=
  .object .error [] ⟨false, false, true⟩ none
    [("name", false, .ok (.string "RangeError"))]

/-- The operator `typeof`. -/
def typeof : Value → String
  | .undefined => "undefined"
  | .null => "object"
  | .boolean _ => "boolean"
  | .number _ => "number"
  | .string _ => "string"
  | .symbol _ => "symbol"
  | .function _ => "function"
  | .object _ _ _ _ _ => "object"

/-- Truthiness of a value (`ToBoolean`). -/
def Value.truthy : Value → Bool
  | .undefined => false
  | .null => false
  | .boolean b => b
  | .number (.finite q) => decide (q ≠ 0)
  | .number .nan => false
  | .number _ => true
  | .string s => decide (s ≠ "")
  | _ => true

/-- The property read `v[name]`. Reading from `undefined` or `null` throws; an
object answers from its property list (a missing name reads as `undefined`);
a string answers `length`; the other members that primitives and functions
inherit are left out and read as `undefined`. -/
def Value.get (v : Value) (name : String) : Except Value Value :=
  match v with
  | .undefined => .error typeError
  | .null => .error typeError
  | .object _ _ _ _ props =>
    match props.find? (fun p => p.1 == name) with
    | some p => p.2.2
    | none => .ok .undefined
  | .string s => if name == "length" then .ok (.number (.finite s.length)) else .ok .undefined
  | _ => .ok .undefined

/-- The first entry of `Object.getOwnPropertyNames(o)`, if there is one. -/
def Value.firstOwnPropertyName : Value → Option String
  | .object _ _ _ _ props => (props.find? (fun p => p.2.1)).map (fun p => p.1)
  | _ => none

/-- The kind of an object; primitives have none. -/
def Value.kind? : Value → Option ObjectKind
  | .object kind _ _ _ _ => some kind
  | _ => none

/-- The `instanceof` answers of a value; all `false` for primitives. -/
def Value.flags : Value → ObjectFlags
  | .object _ _ flags _ _ => flags
  | _ => ⟨false, false, false⟩

/-- `Array.isArray(o)`; the elements when it holds. -/
def Value.arrayElements? : Value → Option (List Value)
  | .object .array elements _ _ _ => some elements
  | _ => none

/-- The test `_.isRegExp(o)`. -/
def isRegExp (o : Value) : Bool := o.kind? == some .regexp

/-- The test `_.isNull(o)`. -/
def isNull : Value → Bool
  | .null => true
  | _ => false

/-- The test `_.isNumber(o)`: a number or a `Number` object; the number when it holds. -/
def isNumber? : Value → Option JSNumber
  | .number n => some n
  | .object (.numberObject n) _ _ _ _ => some n
  | _ => none

/-- The test `_.isBoolean(o)`: a boolean or a `Boolean` object; the boolean when it holds. -/
def isBoolean? : Value → Option Bool
  | .boolean b => some b
  | .object (.booleanObject b) _ _ _ _ => some b
  | _ => none

/-- The test `_.isString(o)`: a string or a `String` object. -/
def isString : Value → Bool
  | .string _ => true
  | .object (.stringObject _) _ _ _ _ => true
  | _ => false

/-- The test `_.isError(o)`. -/
def isError (o : Value) : Bool := o.kind? == some .error

/-- The test `Buffer.isBuffer(o)`. -/
def isBuffer (o : Value) : Bool := o.kind? == some .buffer

/-- What `makeMirror(o)` reports: `some (status, value)` when `m.isPromise()`
holds, with `m.status()` and `m.promiseValue().value()`. -/
def makeMirror : Value → Option (String × Value)
  | .object _ _ _ mirror _ => mirror
  | _ => none

/-- The collaborators outside this file that the formatters call. -/
structure Host where
  /-- The line separator `os.EOL`. -/
  EOL : String
  /-- The highlighter `ReplCommon.highlight`. -/
  highlight : String → String
  /-- The probe `ReplDOM.toHTMLBody`; `none` when its result is falsy. -/
  toHTMLBody : String → Option String
  /-- The text of a number (`Number.prototype.toString`). -/
  numberToString : JSNumber → String
  /-- The text of a value inside a template literal. -/
  display : Value → String

/-! ## Display nodes -/

/-- The elements the formatters build, one constructor per component (or
`span` class), with the props as fields. -/
inductive Node where
  /-- The element `<ReplOutputPromise initStatus initValue promise/>`. -/
  | promise (initStatus : String) (initValue : Value) (promise : Value)
  /-- The element `<ReplOutputBuffer buffer/>`. -/
  | buffer (buffer : Value)
  /-- The `primitive-object` span: opening text, class of the value span, text
  of the value, closing text. -/
  | primitive (opening : String) (className : String) (text : String) (closing : String)
  /-- The element `<ReplOutputInteger int/>`. -/
  | integer (int : JSNumber)
  /-- The span of class `number`. -/
  | number (n : JSNumber)
  /-- The span of class `literal`. -/
  | literal (text : String)
  /-- What `ReplOutputType.array` returns. -/
  | array (out : ArrayOutput Value)
  /-- The element `<ReplOutputObject object label primitive/>`. -/
  | object (object : Value) (label : Option String) (primitive : Bool)
  /-- The element `<ReplOutputFunction html fun expandable short/>`. -/
  | function (html : String) (f : Value) (expandable : Bool) (short : String)
  /-- The element `<ReplOutputHTML body source/>`. -/
  | html (body : String) (source : String)
  /-- The element `<ReplOutputString str/>`. -/
  | string (str : String)
  /-- The element `<ReplOutputRegex regex/>`. -/
  | regex (regex : Value)
  /-- The span of class `read-error`: `[[Get Error]]` and the rendering of the
  caught value. -/
  | readError (rendering : Node)
  /-- The element `<ReplEntryOutputError message trace/>`; `message` is `none`
  when the destructured `first` is `undefined`. -/
  | outputError (message : Option String) (trace : List String)

/-- Elements and arrays are objects, hence truthy. -/
def Node.truthy (_ : Node) : Bool := true

/-- The field `formattedOutput` of what `highlight` returns: an element, or
the raw value. -/
inductive Formatted where
  | node (n : Node)
  | raw (v : Value)

/-- What `highlight` returns. -/
structure Highlighted where
  formattedOutput : Formatted
  error : Bool

/-- What `readProperty` returns: the value read, or an element. -/
inductive ReadResult where
  | value (v : Value)
  | node (n : Node)

/-! ## Strings -/

/-- The first occurrence of `sep` in a text, scanning from the left: the text
before it and the text after it; `none` when `sep` does not occur. -/
def breakOn (sep : List Char) : List Char → Option (List Char × List Char)
  | [] => none
  | c :: cs =>
    if sep.isPrefixOf (c :: cs) then some ([], (c :: cs).drop sep.length)
    else
      match breakOn sep cs with
      | some (before, after) => some (c :: before, after)
      | none => none

/-- The pieces of `String.prototype.split(sep)` for a non-empty `sep`, cutting
at most `fuel` times. -/
def splitFuel (sep : List Char) : Nat → List Char → List (List Char)
  | 0, s => [s]
  | fuel + 1, s =>
    match breakOn sep s with
    | none => [s]
    | some (before, after) => before :: splitFuel sep fuel after

/-- The method call `s.split(sep)` for a non-empty separator `sep`: every cut removes at
least one character, so `s.length` cuts suffice. -/
def split (s sep : String) : List String :=
  (splitFuel sep.data s.length s.data).map String.mk

/-! ## Formatters (`ReplOutputType`) -/

/-- The helper `getObjectLabels`. -/
def getObjectLabels (host : Host) (o : Value) : Except Value (Option String) := do
  let marker ← o.get "_isReactElement"
  if marker.truthy then
    return some " ReactElement \x7b\x7d"
  if o.flags.instanceOfError then
    let name ← o.get "name"
    return some (String.join [" ", host.display name, " \x7b\x7d"])
  if isBuffer o then
    let length ← o.get "length"
    return some (String.join [" Buffer (", host.display length, " bytes) \x7b\x7d"])
  return none

/-- The formatter `ReplOutputType.promise`. -/
def ReplOutputType.promise (status : String) (value : Value) (p : Value) : Node :=
  .promise status value p

/-- The formatter `ReplOutputType.buffer`. -/
def ReplOutputType.buffer (buf : Value) : Node :=
  .buffer buf

/-- The call `n.toString()` on a number, a boolean, or an object boxing one. -/
def Host.toStringOf (host : Host) (n : Value) : String :=
  match isNumber? n, isBoolean? n with
  | some x, _ => host.numberToString x
  | none, some b => toString b
  | none, none => host.display n

/-- The formatter `ReplOutputType.primitive`. -/
def ReplOutputType.primitive (host : Host) (n : Value) (type : String) : Node :=
  let opening := String.join [type, " \x7b"]
  let closing := "\x7d"
  let className := if type = "Number" then "number" else "literal"
  .primitive opening className (host.toStringOf n) closing

/-- The formatter `ReplOutputType.number`; `n | 0` is `ToInt32(n)`, the
bitwise or with `0` changing nothing. -/
def ReplOutputType.number (n : JSNumber) : Node :=
  if n.isFinite && JSNumber.strictEqInt n.toInt32 n then
    .integer n
  else
    .number n

/-- The formatter `ReplOutputType.boolean`. -/
def ReplOutputType.boolean (b : Bool) : Node :=
  .literal (toString b)

/-- The formatter `ReplOutputType.undefined`. -/
def ReplOutputType.undefined : Node :=
  .literal "undefined"

/-- The formatter `ReplOutputType.function`; `code` is `f.toString()`, and
`code.slice(0, idx)` is the text before the first `EOL`. -/
def ReplOutputType.function (host : Host) (f : Value) (code : String) : Node :=
  let funElement := host.highlight code
  match breakOn host.EOL.data code.data with
  | some (before, _) => .function funElement f true (host.highlight (String.mk before))
  | none => .function funElement f false ""

/-- The formatter `ReplOutputType.string`. -/
def ReplOutputType.string (host : Host) (s : String) : Node :=
  match host.toHTMLBody s with
  | some body => .html body s
  | none => .string s

/-- The formatter `ReplOutputType.symbol`; `sy.toString()` is
`Symbol(description)`. -/
def ReplOutputType.symbol (description : String) : Node :=
  .literal (String.join ["Symbol(", description, ")"])

/-- The formatter `ReplOutputType.regexp`. -/
def ReplOutputType.regexp (re : Value) : Node :=
  .regex re

/-- The formatter `ReplOutputType.null`. -/
def ReplOutputType.null : Node :=
  .literal "null"

/-- The comparison `v === k` with a numeric literal `k`. -/
def Value.strictEqNumber (v : Value) (k : ℚ) : Bool :=
  match v with
  | .number (.finite q) => decide (q = k)
  | _ => false

/-- The formatter `ReplOutputType.object`. A raised exception is `.error`. -/
def ReplOutputType.object (host : Host) (o : Value) : Except Value Node := do
  if let some a := o.arrayElements? then
    match ReplOutputType.array a with
    | some out => return .array out
    | none => throw rangeError
  if isRegExp o then
    return ReplOutputType.regexp o
  if isNull o then
    return ReplOutputType.null
  if (isNumber? o).isSome then
    return ReplOutputType.primitive host o "Number"
  if (isBoolean? o).isSome then
    return ReplOutputType.primitive host o "Boolean"
  let thenable ←
    if o.flags.instanceOfPromise then pure true
    else do
      let member ← o.get "then"
      pure member.truthy
  if thenable then
    if o.flags.instanceOfBabelPromise then
      let obj ← o.get (o.firstOwnPropertyName.getD "undefined")
      let s ← obj.get "s"
      let status ←
        if s.strictEqNumber 0 then pure "pending"
        else do
          let s ← obj.get "s"
          pure (if s.strictEqNumber 1 then "resolved" else "rejected")
      let v ← obj.get "v"
      return ReplOutputType.promise status v o
    else
      if let some (status, value) := makeMirror o then
        return ReplOutputType.promise status value o
  if isBuffer o then
    return ReplOutputType.buffer o
  let label ← getObjectLabels host o
  return .object o label (isString o)

/-! ## Result wrappers and accessors (`None`, `Some`, `ReplOutput`) -/

/-- The method `None.highlight(output)` for a text `output`. -/
def None.highlight (host : Host) (output : String) : Highlighted :=
  let parts := split output host.EOL
  { formattedOutput := .node (.outputError parts.head? parts.tail), error := true }

/-- The function `ReplOutput.transformObject`: `ReplOutputType[typeof object](object)`. -/
def transformObject (host : Host) (object : Value) : Except Value Node :=
  match object with
  | .undefined => pure ReplOutputType.undefined
  | .boolean b => pure (ReplOutputType.boolean b)
  | .number n => pure (ReplOutputType.number n)
  | .string s => pure (ReplOutputType.string host s)
  | .symbol description => pure (ReplOutputType.symbol description)
  | .function code => pure (ReplOutputType.function host object code)
  | .null => ReplOutputType.object host object
  | .object _ _ _ _ _ => ReplOutputType.object host object

/-- The text on which `value.stack.split` can be called: a string or a
`String` object. -/
def Value.text? : Value → Option String
  | .string s => some s
  | .object (.stringObject s) _ _ _ _ => some s
  | _ => none

/-- The method `Some.highlight()` of `new Some(value)`. A raised exception is
`.error`: reading `stack` may throw, so may `split` when `stack` is not a
text, and so may the formatter. -/
def Some.highlight (host : Host) (value : Value) : Except Value Highlighted := do
  if isError value then
    let stack ← value.get "stack"
    match stack.text? with
    | some s =>
      let parts := split s host.EOL
      return { formattedOutput := .node (.outputError parts.head? parts.tail), error := false }
    | none => throw typeError
  let out ← transformObject host value
  return { formattedOutput := if out.truthy then .node out else .raw value, error := false }

/-- The function `ReplOutput.readProperty`. The `try` block evaluates
`obj && obj[prop]`; the `catch` block renders the caught value, and an
exception raised there leaves the function (`.error`). -/
def readProperty (host : Host) (obj : Value) (prop : String) : Except Value ReadResult :=
  match (if obj.truthy then obj.get prop else pure obj) with
  | .ok v => pure (.value v)
  | .error e => do
    let rendering ← transformObject host e
    pure (.node (.readError rendering))

/-! ## Specification vocabulary and sample inputs -/

/-- The relation between a text `s` and its pieces at the separator `sep`:
`first` is the text of `s` before the first occurrence of `sep` (all of `s`
when `sep` does not occur, and then `rest` is empty), and `rest` lists the
pieces of what follows that occurrence. -/
def FirstLineAndRest (sep s first : String) (rest : List String) : Prop :=
  (¬ sep.data <:+: s.data ∧ first = s ∧ rest = []) ∨
  (∃ after : String, s = first ++ sep ++ after ∧
    ¬ sep.data <:+: first.data ++ sep.data.dropLast ∧ rest = split after sep)

/-- A host with the POSIX line separator, for the examples. -/
def sampleHost : Host where
  EOL := "\n"
  highlight := fun code => code
  toHTMLBody := fun _ => none
  numberToString := fun _ => "0"
  display := fun _ => "Error"

/-- The object `{ get then() { throw 'inner' } }`. -/
def hostileThenable : Value :=
  .object .plain [] ⟨false, false, false⟩ none [("then", true, .error (.string "inner"))]

/-- The object `{ get x() { throw hostileThenable } }`. -/
def throwingGetter : Value :=
  .object .plain [] ⟨false, false, false⟩ none [("x", true, .error hostileThenable)]

/-- An error object whose `stack` is the given text, as `new Error(..)` makes. -/
def errorWithStack (stack : String) : Value :=
  .object .error [] ⟨false, false, true⟩ none
    [("stack", true, .ok (.string stack)), ("name", false, .ok (.string "Error"))]

/-! ## The chunker on a store of mutable arrays -/

/-- A store of mutable arrays of items; a reference is a position in it. -/
abbrev Store (α : Type) := List (List α)

/-- The content of the array at reference `r` (empty for a dangling one). -/
def Store.read {α : Type} (σ : Store α) (r : Nat) : List α :=
  σ.getD r []

/-- The function `_.clone(a)` on an array: a new array with the same items in
the same order, at a new reference. -/
def Store.clone {α : Type} (σ : Store α) (a : Nat) : Nat × Store α :=
  (σ.length, σ ++ [σ.read a])

/-- The method call `arr.splice(0, count)`: the removed items, and the store in which
`arr` has lost them. -/
def Store.splice {α : Type} (σ : Store α) (arr : Nat) (count : Nat) : List α × Store α :=
  ((σ.read arr).take count, σ.set arr ((σ.read arr).drop count))

/-- The inner function `tokenize(arr, result, range, mul)` where `arr` is a
reference into the store, which `splice` updates in place. Returns the final
store and the final content of `result`. -/
def tokenizeStore {α : Type} :
    Nat → Store α → Nat → List (ReplOutputArray α) → Nat → Nat →
      Option (Store α × List (ReplOutputArray α))
  | 0, _, _, _, _, _ => none
  | fuel + 1, σ, arr, result, range, mul =>
    let len := result.length
    if (σ.read arr).length < range then
      let label :=
        if result.length ≠ 0 then
          rangeLabel ((len * range * mul : Nat) : Int)
            (((len * range * mul : Nat) : Int) - 1 + (((σ.read arr).length % range : Nat) : Int))
        else arrayLabel (σ.read arr).length
      some (σ, result ++ [⟨σ.read arr, label, ((len * range * mul : Nat) : Int), false, none⟩])
    else
      let label := rangeLabel ((len * range * mul : Nat) : Int)
        ((((len + 1) * range * mul : Nat) : Int) - 1)
      let removed := σ.splice arr range
      tokenizeStore fuel removed.2 arr
        (result ++ [⟨removed.1, label, ((len * range * mul : Nat) : Int), false, none⟩])
        range mul

/-- The formatter `ReplOutputType.array` called on the array at reference `a`.
The arrays `arrays` and `arr1000` are created inside the call and hold
elements, not items: they are not in the store, and the second pass is the
function `tokenize`. Returns the final store and the result. -/
def ReplOutputType.arrayStore {α : Type} (σ : Store α) (a : Nat) :
    Option (Store α × ArrayOutput α) := do
  let cloned := σ.clone a
  let arr := cloned.1
  let first ← tokenizeStore ((cloned.2.read arr).length + 1) cloned.2 arr [] 100 1
  let arrays := first.2
  let length := (first.1.read a).length
  if arrays.length > 100 then
    let arr1000 ← tokenize arrays [] 100 100
    if arr1000.length > 1 then
      pure (first.1, .rootOfGroups ⟨arr1000, arrayLabel length, 0, true, some length⟩)
    else
      pure (first.1, .groups arr1000)
  else
    if arrays.length > 1 then
      pure (first.1, .root ⟨arrays, arrayLabel length, 0, true, some length⟩)
    else
      pure (first.1, .chunks arrays)

/-- The leaf chunks of the returned tree, from left to right (through the
groups when there are groups). -/
def ArrayOutput.leaves {α : Type} : ArrayOutput α → List (ReplOutputArray α)
  | .chunks cs => cs
  | .groups gs => gs.flatMap (fun g => g.array)
  | .root r => r.array
  | .rootOfGroups r => r.array.flatMap (fun g => g.array)

/-- The items of all the leaf chunks of the returned tree, from left to right. -/
def ArrayOutput.items {α : Type} (out : ArrayOutput α) : List α :=
  out.leaves.flatMap (fun c => c.array)

/-! ## The rules of the `object` tag, as the specification lists them -/

/-- The test `o instanceof Promise || o.then`; reading `then` may raise. -/
def thenable (o : Value) : Except Value Bool :=
  if o.flags.instanceOfPromise then pure true
  else do
    let member ← o.get "then"
    pure member.truthy

/-- The inspection of a promise of the polyfilled family: the state holder is
the first own property, its `s` is the state code and its `v` the stored
value; a state code other than `0` and `1` reads as rejected. -/
def inspectPolyfilled (o : Value) : Except Value Node := do
  let obj ← o.get (o.firstOwnPropertyName.getD "undefined")
  let s ← obj.get "s"
  let status ←
    if s.strictEqNumber 0 then pure "pending"
    else do
      let s ← obj.get "s"
      pure (if s.strictEqNumber 1 then "resolved" else "rejected")
  let v ← obj.get "v"
  pure (ReplOutputType.promise status v o)

/-- The inspection of a promise that the debug mirror recognises. -/
def inspectNative (o : Value) : Except Value Node :=
  match makeMirror o with
  | some (status, value) => pure (ReplOutputType.promise status value o)
  | none => throw typeError

/-- The rendering by the array chunker. -/
def renderArray (o : Value) : Except Value Node :=
  match o.arrayElements? with
  | some a =>
    match ReplOutputType.array a with
    | some out => pure (.array out)
    | none => throw rangeError
  | none => throw typeError

/-- The generic object element, with the label of `getObjectLabels`. -/
def renderGenericObject (host : Host) (o : Value) : Except Value Node := do
  let label ← getObjectLabels host o
  pure (.object o label (isString o))

/-- One rule of the dispatch: its name, its condition and its rendering. Both
are computations on the value and may raise. -/
structure ObjectRule where
  name : String
  applies : Value → Except Value Bool
  render : Value → Except Value Node

/-- The eight rules of the `object` tag, in the order of the specification. A
value is a promise of a known family when it is thenable and is an instance
of the polyfilled constructor or is recognised by the debug mirror. -/
def objectRules (host : Host) : List ObjectRule :=
  [ ⟨"array", fun o => pure o.arrayElements?.isSome, renderArray⟩,
    ⟨"regular expression", fun o => pure (isRegExp o), fun o => pure (ReplOutputType.regexp o)⟩,
    ⟨"null", fun o => pure (isNull o), fun _ => pure ReplOutputType.null⟩,
    ⟨"boxed number", fun o => pure (isNumber? o).isSome,
      fun o => pure (ReplOutputType.primitive host o "Number")⟩,
    ⟨"boxed boolean", fun o => pure (isBoolean? o).isSome,
      fun o => pure (ReplOutputType.primitive host o "Boolean")⟩,
    ⟨"promise of a known family",
      fun o => do
        let t ← thenable o
        pure (t && (o.flags.instanceOfBabelPromise || (makeMirror o).isSome)),
      fun o => if o.flags.instanceOfBabelPromise then inspectPolyfilled o else inspectNative o⟩,
    ⟨"byte buffer", fun o => pure (isBuffer o), fun o => pure (ReplOutputType.buffer o)⟩,
    ⟨"generic object", fun _ => pure true, renderGenericObject host⟩ ]

/-- First match wins: the rules are tried from the top, the first whose
condition holds renders the value; a condition or a rendering that raises
ends the evaluation with that exception. -/
def firstMatch : List ObjectRule → Value → Except Value Node
  | [], _ => throw typeError
  | rule :: rules, o => do
    if (← rule.applies o) then rule.render o else firstMatch rules o

/-- A promise of the polyfilled family: a plain object that is an instance of
the polyfilled constructor and, like every promise, passes the test
`o instanceof Promise || o.then`. -/
def IsPolyfilledPromise (o : Value) : Prop :=
  o.kind? = some .plain ∧ o.flags.instanceOfBabelPromise = true ∧ thenable o = .ok true

/-- A promise of the polyfilled family whose state holder, its first own
property, has the state code `s` and the stored value `v`. -/
def polyfilledPromise (s : ℚ) (v : Value) : Value :=
  .object .plain [] ⟨false, true, false⟩ none
    [("_d", true, .ok (.object .plain [] ⟨false, false, false⟩ none
        [("s", true, .ok (.number (.finite s))), ("v", true, .ok v)])),
     ("then", false, .ok (.function "function then() \x7b [native code] \x7d"))]

/-- The array `[]` to which a member `then` has been added. -/
def arrayWithThen : Value :=
  .object .array [] ⟨false, false, false⟩ none
    [("then", true, .ok (.function "function () \x7b\x7d"))]

/-- The object `{ then: function () {} }`. -/
def plainThenable : Value :=
  .object .plain [] ⟨false, false, false⟩ none
    [("then", true, .ok (.function "function () \x7b\x7d"))]

/-! ## The dispatch table and `ReplOutput.asObject` -/

/-- The own keys of the object literal `ReplOutputType`, in source order. -/
def ReplOutputType.tags : List String :=
  ["promise", "buffer", "primitive", "number", "boolean", "array", "object", "undefined",
   "function", "string", "symbol", "regexp", "null"]

/-- The names that an object literal inherits from `Object.prototype`. -/
def objectPrototypeNames : List String :=
  ["constructor", "toString", "toLocaleString", "valueOf", "hasOwnProperty", "isPrototypeOf",
   "propertyIsEnumerable", "__proto__", "__defineGetter__", "__defineSetter__",
   "__lookupGetter__", "__lookupSetter__"]

/-- What the property read `ReplOutputType[type]` finds. -/
inductive TableMember where
  /-- A formatter defined in the object literal. -/
  | formatter (tag : String)
  /-- A member inherited from `Object.prototype`. -/
  | inherited (name : String)
deriving DecidableEq

/-- The property read `ReplOutputType[type]`: own keys first, then the
prototype; `none` is `undefined`. Every member found is truthy. -/
def ReplOutputType.member? (type : String) : Option TableMember :=
  if type ∈ ReplOutputType.tags then some (.formatter type)
  else if type ∈ objectPrototypeNames then some (.inherited type)
  else none

/-- What `asObject` returns: an element built by a formatter, a plain value
(`undefined` included), or the outcome of a formatter called on an argument of
another type than the one it is written for, which is not evaluated further. -/
inductive AsObjectResult where
  | element (n : Node)
  | value (v : Value)
  | outcomeOf (tag : String) (argument : Value)

/-- The object `ReplOutputType` itself, as a value. -/
def replOutputTypeObject : Value :=
  .object .plain [] ⟨false, false, false⟩ none
    (ReplOutputType.tags.map (fun tag => (tag, true, .ok (.function tag))))

/-- The property key that a value names (`ToPropertyKey`), when it is a text. -/
def propertyKey? (host : Host) : Value → Option String
  | .string s => some s
  | .symbol _ => none
  | v => some (host.display v)

/-- The call `ReplOutputType[name](object)` of a member inherited from
`Object.prototype`, the receiver being `ReplOutputType`. -/
def callInherited (host : Host) (name : String) (object : Value) : Except Value Value :=
  if name = "toString" ∨ name = "toLocaleString" then pure (.string "[object Object]")
  else if name = "valueOf" then pure replOutputTypeObject
  else if name = "constructor" then
    match object with
    | .undefined => pure (.object .plain [] ⟨false, false, false⟩ none [])
    | .null => pure (.object .plain [] ⟨false, false, false⟩ none [])
    | .boolean b => pure (.object (.booleanObject b) [] ⟨false, false, false⟩ none [])
    | .number n => pure (.object (.numberObject n) [] ⟨false, false, false⟩ none [])
    | .string s => pure (.object (.stringObject s) [] ⟨false, false, false⟩ none [])
    | .symbol _ => pure (.object .plain [] ⟨false, false, false⟩ none [])
    | o => pure o
  else if name = "hasOwnProperty" ∨ name = "propertyIsEnumerable" then
    match propertyKey? host object with
    | some key => pure (.boolean (decide (key ∈ ReplOutputType.tags)))
    | none => pure (.boolean false)
  else if name = "isPrototypeOf" then pure (.boolean false)
  else if name = "__lookupGetter__" ∨ name = "__lookupSetter__" then pure .undefined
  else throw typeError

/-- The call `ReplOutputType[tag](object)` of a formatter with the single
argument `object`; the other parameters of the formatter are `undefined`. -/
def callFormatter (host : Host) (tag : String) (object : Value) : Except Value AsObjectResult :=
  if tag = "promise" then
    match object with
    | .string status => pure (.element (ReplOutputType.promise status .undefined .undefined))
    | _ => pure (.outcomeOf tag object)
  else if tag = "buffer" then pure (.element (ReplOutputType.buffer object))
  else if tag = "primitive" then
    match object with
    | .undefined => throw typeError
    | .null => throw typeError
    | _ => pure (.element (ReplOutputType.primitive host object "undefined"))
  else if tag = "number" then
    match object with
    | .number n => pure (.element (ReplOutputType.number n))
    | _ => pure (.outcomeOf tag object)
  else if tag = "boolean" then
    match object with
    | .boolean b => pure (.element (ReplOutputType.boolean b))
    | _ => pure (.outcomeOf tag object)
  else if tag = "array" then
    match object.arrayElements? with
    | some a =>
      match ReplOutputType.array a with
      | some out => pure (.element (.array out))
      | none => throw rangeError
    | none => pure (.outcomeOf tag object)
  else if tag = "object" then do
    let out ← ReplOutputType.object host object
    pure (.element out)
  else if tag = "undefined" then pure (.element ReplOutputType.undefined)
  else if tag = "function" then
    match object with
    | .function code => pure (.element (ReplOutputType.function host object code))
    | _ => pure (.outcomeOf tag object)
  else if tag = "string" then
    match object with
    | .string s => pure (.element (ReplOutputType.string host s))
    | _ => pure (.outcomeOf tag object)
  else if tag = "symbol" then
    match object with
    | .symbol description => pure (.element (ReplOutputType.symbol description))
    | _ => pure (.outcomeOf tag object)
  else if tag = "regexp" then pure (.element (ReplOutputType.regexp object))
  else if tag = "null" then pure (.element ReplOutputType.null)
  else throw typeError

/-- The function `ReplOutput.asObject`: when `ReplOutputType[type]` is truthy
the member is called on `object`; otherwise the function returns `undefined`. -/
def asObject (host : Host) (object : Value) (type : String) : Except Value AsObjectResult :=
  match ReplOutputType.member? type with
  | some (.formatter tag) => callFormatter host tag object
  | some (.inherited name) => do
    let result ← callInherited host name object
    pure (.value result)
  | none => pure (.value .undefined)

/-! ## The chunker on a bounded call stack -/

/-- The formatter `ReplOutputType.array` on a call stack with room for `depth`
nested calls of `tokenize`. Each pass recurses once per `range` items; a pass
that needs more than `depth` calls raises `RangeError`, which is `none`. -/
def ReplOutputType.arrayWithin {α : Type} (depth : Nat) (a : List α) :
    Option (ArrayOutput α) := do
  let arr := a
  let arrays ← tokenizeFuel depth arr [] 100 1
  if arrays.length > 100 then
    let arr1000 ← tokenizeFuel depth arrays [] 100 100
    if arr1000.length > 1 then
      pure (.rootOfGroups ⟨arr1000, arrayLabel a.length, 0, true, some a.length⟩)
    else
      pure (.groups arr1000)
  else
    if arrays.length > 1 then
      pure (.root ⟨arrays, arrayLabel a.length, 0, true, some a.length⟩)
    else
      pure (.chunks arrays)

/-- The number of original elements under each child of the root, in order
(empty when the result has no root). -/
def ArrayOutput.rootChildItems {α : Type} : ArrayOutput α → List Nat
  | .chunks _ => []
  | .groups _ => []
  | .root r => r.array.map (fun c => c.array.length)
  | .rootOfGroups r => r.array.map (fun g => (g.array.map (fun c => c.array.length)).sum)

/-! ## Theorems -/

/-! ### Array chunker -/

theorem chunkAt_succ {β : Type} (arr : List β) (base range mul j : Nat) (hr : 0 < range)
    (h : range ≤ arr.length) :
    chunkAt arr base range mul (j + 1) = chunkAt (arr.drop range) (base + 1) range mul j := by
  have hq : arr.length / range = (arr.length - range) / range + 1 := by
    rw [← Nat.sub_add_cancel h, Nat.add_div_right _ hr, Nat.add_sub_cancel]
  have hm : (arr.length - range) % range = arr.length % range := by
    conv_rhs => rw [← Nat.sub_add_cancel h, Nat.add_mod_right]
  have hb : base + (j + 1) = base + 1 + j := by omega
  have hd : List.drop ((j + 1) * range) arr = List.drop (j * range) (List.drop range arr) := by
    rw [List.drop_drop]; congr 1; ring
  simp only [chunkAt, hd, List.length_drop, hq, hm, hb, Nat.add_lt_add_iff_right]
  have h1 : base + 1 + j ≠ 0 := by omega
  simp [h1]

theorem tokenizeFuel_eq {β : Type} (range mul : Nat) (hr : 0 < range) :
    ∀ (fuel : Nat) (arr : List β) (result : List (ReplOutputArray β)),
      arr.length / range < fuel →
      tokenizeFuel fuel arr result range mul
        = some (result ++ (List.range (arr.length / range + 1)).map
            (chunkAt arr result.length range mul)) := by
  intro fuel
  induction fuel with
  | zero => intro arr result h; exact absurd h (Nat.not_lt_zero _)
  | succ fuel ih =>
    intro arr result h
    unfold tokenizeFuel
    by_cases hlt : arr.length < range
    · have hq : arr.length / range = 0 := Nat.div_eq_of_lt hlt
      simp only [hlt, if_true, hq]
      simp [chunkAt, hq, List.take_of_length_le (Nat.le_of_lt hlt), List.range_succ]
    · have hge : range ≤ arr.length := Nat.le_of_not_lt hlt
      have hq : arr.length / range = (arr.length - range) / range + 1 := by
        rw [← Nat.sub_add_cancel hge, Nat.add_div_right _ hr, Nat.add_sub_cancel]
      simp only [hlt, if_false]
      have hf : (arr.drop range).length / range < fuel := by
        rw [List.length_drop]
        rw [hq] at h
        exact Nat.lt_of_succ_lt_succ h
      rw [ih (arr.drop range) _ hf]
      congr 1
      rw [List.range_succ_eq_map (arr.length / range), List.map_cons, List.map_map,
        List.length_drop, List.append_assoc, List.length_append, List.length_singleton]
      congr 1
      rw [List.singleton_append, ← hq]
      congr 1
      · have hpos : 0 < arr.length / range := by rw [hq]; exact Nat.succ_pos _
        simp [chunkAt, hpos]
      · apply List.map_congr_left
        intro j _
        exact (chunkAt_succ arr result.length range mul j hr hge).symm

theorem tokenize_eq {β : Type} (range mul : Nat) (hr : 0 < range) (arr : List β)
    (result : List (ReplOutputArray β)) :
    tokenize arr result range mul
      = some (result ++ (List.range (arr.length / range + 1)).map
          (chunkAt arr result.length range mul)) :=
  tokenizeFuel_eq range mul hr (arr.length + 1) arr result
    (Nat.lt_succ_of_le (Nat.div_le_self _ _))

theorem length_leafChunks {α : Type} (a : List α) :
    (leafChunks a).length = a.length / 100 + 1 := by
  simp [leafChunks]

theorem length_groupChunks {α : Type} (a : List α) :
    (groupChunks a).length = (a.length / 100 + 1) / 100 + 1 := by
  simp [groupChunks, length_leafChunks]

theorem tokenize_first_pass {α : Type} (a : List α) :
    tokenize a [] 100 = some (leafChunks a) := by
  rw [tokenize_eq 100 1 (by decide)]
  simp [leafChunks]

theorem tokenize_second_pass {α : Type} (a : List α) :
    tokenize (leafChunks a) [] 100 100 = some (groupChunks a) := by
  rw [tokenize_eq 100 100 (by decide)]
  simp [groupChunks]

/-- The three outcomes of `ReplOutputType.array`, by the length of the input. -/
theorem array_eq {α : Type} (a : List α) :
    ReplOutputType.array a = some
      (if 10000 ≤ a.length then
        .rootOfGroups ⟨groupChunks a, arrayLabel a.length, 0, true, some a.length⟩
      else if 100 ≤ a.length then
        .root ⟨leafChunks a, arrayLabel a.length, 0, true, some a.length⟩
      else .chunks (leafChunks a)) := by
  unfold ReplOutputType.array
  simp only [tokenize_first_pass, Option.bind_eq_bind, Option.some_bind, length_leafChunks,
    Option.pure_def]
  by_cases h1 : 10000 ≤ a.length
  · have h2 : a.length / 100 + 1 > 100 := by omega
    have h3 : (a.length / 100 + 1) / 100 + 1 > 1 := by omega
    simp only [h2, if_true, tokenize_second_pass, Option.some_bind, length_groupChunks, h3, h1]
  · have h2 : ¬ (a.length / 100 + 1 > 100) := by omega
    by_cases h4 : 100 ≤ a.length
    · have h5 : a.length / 100 + 1 > 1 := by omega
      simp only [h2, if_false, h5, if_true, h1, h4]
    · have h5 : ¬ (a.length / 100 + 1 > 1) := by omega
      simp only [h2, if_false, h5, h1, h4]

theorem chunkAt_leaf_bounds {α : Type} (a : List α) (h : 100 < a.length) (j : Nat)
    (hj : j < a.length / 100 + 1) :
    ∃ lo hi : Nat,
      (chunkAt a 0 100 1 j).label = rangeLabel lo hi ∧ (chunkAt a 0 100 1 j).start = lo ∧
      hi + 1 = lo + (chunkAt a 0 100 1 j).array.length ∧ hi < a.length ∧
      (chunkAt a 0 100 1 j).array = (a.drop lo).take (hi + 1 - lo) := by
  by_cases hjq : j < a.length / 100
  · refine ⟨j * 100, j * 100 + 99, ?_, ?_, ?_, ?_, ?_⟩
    · simp only [chunkAt, hjq, if_true]
      congr 1 <;> push_cast <;> ring
    · simp [chunkAt]
    · simp only [chunkAt, List.length_take, List.length_drop]; omega
    · omega
    · simp only [chunkAt]
      congr 1; omega
  · have hq : j = a.length / 100 := by omega
    have hj0 : 0 + j ≠ 0 := by omega
    refine ⟨j * 100, j * 100 - 1 + a.length % 100, ?_, ?_, ?_, ?_, ?_⟩
    · simp only [chunkAt, hjq, if_false, hj0, ne_eq, not_false_eq_true, if_true]
      congr 1
      · push_cast; ring
      · have : 1 ≤ j * 100 := by omega
        push_cast [Nat.cast_sub this]; ring
    · simp [chunkAt]
    · simp only [chunkAt, List.length_take, List.length_drop]; omega
    · omega
    · simp only [chunkAt]
      rw [List.take_of_length_le, List.take_of_length_le]
      · simp only [List.length_drop]; omega
      · simp only [List.length_drop]; omega

/-- C1: for an array `a` of more than 100 elements the first pass
`tokenize(arr, arrays, 100)` returns, and each chunk it produces has a label
`[lo … hi]` and a start index `lo` such that the chunk holds exactly the
elements `a[lo], ..., a[hi]` in order (`hi + 1 - lo` of them, with
`hi < a.length`; the last chunk may hold fewer than 100, and none when
`hi + 1 = lo`). -/
theorem tokenize_leaf_label_exact {α : Type} (a : List α) (h : 100 < a.length) :
    ∃ arrays, tokenize a [] 100 = some arrays ∧
      ∀ c ∈ arrays, ∃ lo hi : Nat,
        c.label = rangeLabel lo hi ∧ c.start = lo ∧
        hi + 1 = lo + c.array.length ∧ hi < a.length ∧
        c.array = (a.drop lo).take (hi + 1 - lo) ∧
        ∀ k, k < c.array.length → c.array[k]? = a[lo + k]? := by
  refine ⟨leafChunks a, tokenize_first_pass a, ?_⟩
  intro c hc
  simp only [leafChunks, List.mem_map, List.mem_range] at hc
  obtain ⟨j, hj, rfl⟩ := hc
  obtain ⟨lo, hi, h1, h2, h3, h4, h5⟩ := chunkAt_leaf_bounds a h j hj
  refine ⟨lo, hi, h1, h2, h3, h4, h5, ?_⟩
  intro k hk
  rw [h5, List.getElem?_take, List.getElem?_drop]
  have : k < hi + 1 - lo := by omega
  simp [this]

set_option maxRecDepth 100000 in
theorem tokenize_leaf_label_exact_witness :
    100 < (List.range 250).length ∧
    ∃ arrays, tokenize (List.range 250) [] 100 = some arrays ∧
      ∀ c ∈ arrays, ∃ lo hi : Nat,
        c.label = rangeLabel lo hi ∧ c.start = lo ∧
        hi + 1 = lo + c.array.length ∧ hi < (List.range 250).length ∧
        c.array = ((List.range 250).drop lo).take (hi + 1 - lo) ∧
        ∀ k, k < c.array.length → c.array[k]? = (List.range 250)[lo + k]? :=
  ⟨by decide, tokenize_leaf_label_exact (List.range 250) (by decide)⟩

theorem bind_take_drop {β : Type} (range : Nat) (hr : 0 < range) :
    ∀ (q : Nat) (l : List β), l.length / range = q →
      (List.range (q + 1)).flatMap (fun j => (l.drop (j * range)).take range) = l := by
  intro q
  induction q with
  | zero =>
    intro l hl
    have hlt : l.length < range := by
      rcases Nat.lt_or_ge l.length range with h | h
      · exact h
      · exact absurd hl (Nat.ne_of_gt (Nat.div_pos h hr))
    simp [List.range_succ, List.take_of_length_le (Nat.le_of_lt hlt)]
  | succ q ih =>
    intro l hl
    have hge : range ≤ l.length := by
      rcases Nat.lt_or_ge l.length range with h | h
      · rw [Nat.div_eq_of_lt h] at hl; exact absurd hl (Nat.succ_ne_zero q).symm
      · exact h
    have hq : (l.drop range).length / range = q := by
      rw [List.length_drop]
      have : l.length / range = (l.length - range) / range + 1 := by
        rw [← Nat.sub_add_cancel hge, Nat.add_div_right _ hr, Nat.add_sub_cancel]
      omega
    rw [List.range_succ_eq_map (q + 1), List.flatMap_cons, List.flatMap_map]
    have hstep : (fun j : Nat => (l.drop (j.succ * range)).take range)
        = (fun j => ((l.drop range).drop (j * range)).take range) := by
      funext j
      simp only [List.drop_drop]
      congr 2
      rw [Nat.succ_mul]; omega
    rw [hstep, ih (l.drop range) hq]
    simp

theorem bind_groupChunks {α : Type} (a : List α) :
    (groupChunks a).flatMap (fun g => g.array) = leafChunks a := by
  simp only [groupChunks, List.flatMap_map, chunkAt]
  exact bind_take_drop 100 (by decide) _ (leafChunks a) rfl

theorem length_le_of_mem_leafChunks {α : Type} (a : List α) (c : ReplOutputArray α)
    (hc : c ∈ leafChunks a) : c.array.length ≤ 100 := by
  simp only [leafChunks, List.mem_map, List.mem_range] at hc
  obtain ⟨j, _, rfl⟩ := hc
  simp only [chunkAt, List.length_take]
  exact Nat.min_le_left _ _

theorem length_le_of_mem_groupChunks {α : Type} (a : List α)
    (g : ReplOutputArray (ReplOutputArray α)) (hg : g ∈ groupChunks a) :
    g.array.length ≤ 100 ∧ ∀ c ∈ g.array, c ∈ leafChunks a := by
  simp only [groupChunks, List.mem_map, List.mem_range] at hg
  obtain ⟨j, _, rfl⟩ := hg
  constructor
  · simp only [chunkAt, List.length_take]
    exact Nat.min_le_left _ _
  · intro c hc
    simp only [chunkAt] at hc
    exact List.mem_of_mem_drop (List.mem_of_mem_take hc)

/-- Below 100 elements the result is the single leaf chunk, unwrapped: all the
elements, labeled `Array[n]`, start index 0, indices shown. -/
theorem array_of_length_lt_100 {α : Type} (a : List α) (h : a.length < 100) :
    ReplOutputType.array a = some (.chunks [⟨a, arrayLabel a.length, 0, false, none⟩]) := by
  rw [array_eq a, if_neg (by omega), if_neg (by omega)]
  have hq : a.length / 100 = 0 := Nat.div_eq_of_lt h
  simp [leafChunks, chunkAt, hq, List.range_succ, List.take_of_length_le (Nat.le_of_lt h)]

/-- From 100 up to 9999 elements the result is a root labeled `Array[n]`, with
indices hidden, over `n / 100 + 1` leaf chunks (integer division): one more
than `ceil(n / 100)` when `n` is a multiple of 100, the last chunk then being
empty. -/
theorem array_of_length_lt_10000 {α : Type} (a : List α) (h1 : 100 ≤ a.length)
    (h2 : a.length < 10000) :
    ReplOutputType.array a
        = some (.root ⟨leafChunks a, arrayLabel a.length, 0, true, some a.length⟩) ∧
      (leafChunks a).length = a.length / 100 + 1 ∧
      (leafChunks a).flatMap (fun c => c.array) = a := by
  refine ⟨?_, length_leafChunks a, ?_⟩
  · rw [array_eq a, if_neg (by omega), if_pos h1]
  · simp only [leafChunks, List.flatMap_map, chunkAt]
    exact bind_take_drop 100 (by decide) _ a rfl

set_option maxRecDepth 100000 in
/-- C2: evaluation of `ReplOutputType.array` on the 15000 elements `0, ..., 14999`
(each element equals its original index). The second group holds 51 leaf
chunks whose 5000 elements are `10000, ..., 14999`, yet its label is
`[10000 … 10050]`: the upper bound is `10000 - 1 + 51`, the number of chunks
left, not the index of the last element. -/
theorem array_15000_group_labels :
    (ReplOutputType.array (List.range 15000)).map ArrayOutput.groupSummaries
      = some [⟨"[0 … 9999]", 0, 100, 10000, some 0, some 9999⟩,
              ⟨"[10000 … 10050]", 10000, 51, 5000, some 10000, some 14999⟩] := by
  decide!

set_option maxRecDepth 100000 in
/-- C3: evaluation of `ReplOutputType.array` on the 100 elements `0, ..., 99`.
The result is a root element labeled `Array[100]` over two leaf chunks, the
full chunk `[0 … 99]` and an empty chunk labeled `[100 … 99]`, not a single
leaf labeled `Array[100]`. -/
theorem array_100_is_wrapped :
    ReplOutputType.array (List.range 100)
      = some (.root ⟨[⟨List.range 100, "[0 … 99]", 0, false, none⟩,
                      ⟨[], "[100 … 99]", 100, false, none⟩],
                     "Array[100]", 0, true, some 100⟩) := by
  decide!

set_option maxRecDepth 100000 in
/-- C4: evaluation of `ReplOutputType.array` on the 200 elements `0, ..., 199`.
The root labeled `Array[200]` has three children, not `ceil(200/100) = 2`: the
last one is an empty chunk labeled `[200 … 199]`. -/
theorem array_200_has_three_children :
    ReplOutputType.array (List.range 200)
      = some (.root ⟨[⟨List.range 100, "[0 … 99]", 0, false, none⟩,
                      ⟨(List.range 100).map (fun i => i + 100), "[100 … 199]", 100, false, none⟩,
                      ⟨[], "[200 … 199]", 200, false, none⟩],
                     "Array[200]", 0, true, some 200⟩) := by
  decide!

/-- Every leaf chunk of the result holds at most 100 elements and every
second-tier group holds at most 100 leaf chunks. -/
theorem array_children_bounded {α : Type} (a : List α) :
    ∃ out, ReplOutputType.array a = some out ∧ ∀ k ∈ out.belowRootCounts, k ≤ 100 := by
  refine ⟨_, array_eq a, ?_⟩
  have hleaf : ∀ k ∈ (leafChunks a).map (fun c => c.array.length), k ≤ 100 := by
    intro k hk
    simp only [List.mem_map] at hk
    obtain ⟨c, hc, rfl⟩ := hk
    exact length_le_of_mem_leafChunks a c hc
  have hgroup : ∀ k ∈ (groupChunks a).map (fun g => g.array.length)
      ++ (groupChunks a).flatMap (fun g => g.array.map (fun c => c.array.length)), k ≤ 100 := by
    intro k hk
    simp only [List.mem_append, List.mem_map, List.mem_flatMap] at hk
    rcases hk with ⟨g, hg, rfl⟩ | ⟨g, hg, c, hc, rfl⟩
    · exact (length_le_of_mem_groupChunks a g hg).1
    · exact length_le_of_mem_leafChunks a c ((length_le_of_mem_groupChunks a g hg).2 c hc)
  by_cases h1 : 10000 ≤ a.length
  · rw [if_pos h1]
    exact hgroup
  · by_cases h2 : 100 ≤ a.length
    · rw [if_neg h1, if_pos h2]
      exact hleaf
    · rw [if_neg h1, if_neg h2]
      exact hleaf

/-- C10: for every array `ReplOutputType.array` returns one of three shapes and
no other: the leaf chunks of the first pass unwrapped, a root over those leaf
chunks, or a root over the groups that the second pass makes of the leaf
chunks (the children of the groups, in order, are exactly the leaf chunks of
the first pass). The groups are never partitioned again, however many there
are. -/
theorem array_at_most_two_tiers {α : Type} (a : List α) :
    ∃ leaves, tokenize a [] 100 = some leaves ∧
      (ReplOutputType.array a = some (.chunks leaves) ∨
       (∃ r, ReplOutputType.array a = some (.root r) ∧ r.array = leaves) ∨
       (∃ r, ReplOutputType.array a = some (.rootOfGroups r) ∧
          tokenize leaves [] 100 100 = some r.array ∧
          r.array.flatMap (fun g => g.array) = leaves)) := by
  refine ⟨leafChunks a, tokenize_first_pass a, ?_⟩
  rw [array_eq a]
  by_cases h1 : 10000 ≤ a.length
  · rw [if_pos h1]
    exact Or.inr (Or.inr ⟨_, rfl, tokenize_second_pass a, bind_groupChunks a⟩)
  · by_cases h2 : 100 ≤ a.length
    · rw [if_neg h1, if_pos h2]
      exact Or.inr (Or.inl ⟨_, rfl, rfl⟩)
    · rw [if_neg h1, if_neg h2]
      exact Or.inl rfl

/-! ### Numbers -/

theorem toInt32_intCast (i : ℤ) :
    (JSNumber.finite (i : ℚ)).toInt32
      = if i % 4294967296 ≥ 2147483648 then i % 4294967296 - 4294967296
        else i % 4294967296 := by
  simp only [JSNumber.toInt32, Rat.num_intCast, Rat.den_intCast, Nat.div_one,
    Int.sign_mul_natAbs]

theorem number_intCast (i : ℤ) :
    ReplOutputType.number (.finite (i : ℚ))
      = if -2147483648 ≤ i ∧ i ≤ 2147483647 then Node.integer (.finite (i : ℚ))
        else Node.number (.finite (i : ℚ)) := by
  simp only [ReplOutputType.number, JSNumber.isFinite, JSNumber.strictEqInt, toInt32_intCast,
    Bool.true_and, decide_eq_true_eq, Int.cast_inj]
  by_cases h : -2147483648 ≤ i ∧ i ≤ 2147483647
  · rw [if_pos h, if_pos]
    split_ifs <;> omega
  · rw [if_neg h, if_neg]
    split_ifs <;> omega

/-- C6: evaluation of `ReplOutputType.number` at `2147483648 = 2^31`, a finite
number without fractional part. `2147483648 | 0` is `-2147483648`, the test
`(n | 0) === n` fails, and the formatter returns the generic numeric span, not
the integer element built by the branch that the source comments as
`// integers`. -/
theorem number_2147483648_generic :
    ReplOutputType.number (.finite ((2147483648 : ℤ) : ℚ))
        = .number (.finite ((2147483648 : ℤ) : ℚ)) ∧
      ReplOutputType.number (.finite ((2147483648 : ℤ) : ℚ))
        ≠ .integer (.finite ((2147483648 : ℤ) : ℚ)) := by
  have h : ReplOutputType.number (.finite ((2147483648 : ℤ) : ℚ))
      = .number (.finite ((2147483648 : ℤ) : ℚ)) := by
    rw [number_intCast, if_neg (by omega)]
  exact ⟨h, by rw [h]; exact fun hne => Node.noConfusion hne⟩

/-- What `ReplOutputType.number` does on the integers: the integer element
exactly when `-2^31 ≤ i ≤ 2^31 - 1`, and the generic numeric span for every
other integer. -/
theorem number_of_integer (i : ℤ) :
    ReplOutputType.number (.finite (i : ℚ))
      = if -2147483648 ≤ i ∧ i ≤ 2147483647 then Node.integer (.finite (i : ℚ))
        else Node.number (.finite (i : ℚ)) :=
  number_intCast i

/-! ### Strings -/

theorem breakOn_eq_some (sep : List Char) :
    ∀ (s before after : List Char), breakOn sep s = some (before, after) →
      s = before ++ sep ++ after := by
  intro s
  induction s with
  | nil => intro before after h; simp [breakOn] at h
  | cons c cs ih =>
    intro before after h
    unfold breakOn at h
    by_cases hp : sep.isPrefixOf (c :: cs) = true
    · rw [if_pos hp] at h
      obtain ⟨t, ht⟩ := List.isPrefixOf_iff_prefix.mp hp
      simp only [Option.some.injEq, Prod.mk.injEq] at h
      obtain ⟨rfl, rfl⟩ := h
      rw [← ht]
      simp
    · rw [if_neg hp] at h
      cases hb : breakOn sep cs with
      | none => rw [hb] at h; simp at h
      | some pr =>
        obtain ⟨p, r⟩ := pr
        rw [hb] at h
        simp only [Option.some.injEq, Prod.mk.injEq] at h
        obtain ⟨rfl, rfl⟩ := h
        rw [ih p r hb]
        simp

theorem breakOn_eq_none (sep : List Char) (hsep : sep ≠ []) :
    ∀ (s : List Char), breakOn sep s = none → ¬ sep <:+: s := by
  intro s
  induction s with
  | nil =>
    intro _ h
    exact hsep (List.eq_nil_of_infix_nil h)
  | cons c cs ih =>
    intro h hin
    unfold breakOn at h
    by_cases hp : sep.isPrefixOf (c :: cs) = true
    · rw [if_pos hp] at h; simp at h
    · rw [if_neg hp] at h
      cases hb : breakOn sep cs with
      | some pr => rw [hb] at h; simp at h
      | none =>
        rcases List.infix_cons_iff.mp hin with h1 | h1
        · exact hp (List.isPrefixOf_iff_prefix.mpr h1)
        · exact ih hb h1

theorem breakOn_first (sep : List Char) (hsep : sep ≠ []) :
    ∀ (s before after : List Char), breakOn sep s = some (before, after) →
      ¬ sep <:+: before ++ sep.dropLast := by
  intro s
  induction s with
  | nil => intro before after h; simp [breakOn] at h
  | cons c cs ih =>
    intro before after h hin
    unfold breakOn at h
    by_cases hp : sep.isPrefixOf (c :: cs) = true
    · rw [if_pos hp] at h
      simp only [Option.some.injEq, Prod.mk.injEq] at h
      obtain ⟨rfl, _⟩ := h
      have hlen := hin.length_le
      have hpos : 0 < sep.length := List.length_pos.mpr hsep
      simp only [List.nil_append, List.length_dropLast] at hlen
      omega
    · rw [if_neg hp] at h
      cases hb : breakOn sep cs with
      | none => rw [hb] at h; simp at h
      | some pr =>
        obtain ⟨p, r⟩ := pr
        rw [hb] at h
        simp only [Option.some.injEq, Prod.mk.injEq] at h
        obtain ⟨rfl, rfl⟩ := h
        rw [List.cons_append] at hin
        rcases List.infix_cons_iff.mp hin with h1 | h1
        · apply hp
          apply List.isPrefixOf_iff_prefix.mpr
          have hcs : cs = p ++ sep ++ r := breakOn_eq_some sep cs p r hb
          have hd : sep.dropLast ++ [sep.getLast hsep] = sep := List.dropLast_append_getLast hsep
          have hpre : c :: (p ++ sep.dropLast) <+: c :: cs := by
            refine ⟨[sep.getLast hsep] ++ r, ?_⟩
            rw [hcs]
            conv_rhs => rw [← hd]
            simp
          exact h1.trans hpre
        · exact ih p r hb h1

theorem splitFuel_fuel (sep : List Char) (hsep : sep ≠ []) :
    ∀ (f1 f2 : Nat) (s : List Char), s.length ≤ f1 → s.length ≤ f2 →
      splitFuel sep f1 s = splitFuel sep f2 s := by
  intro f1
  induction f1 with
  | zero =>
    intro f2 s h1 _
    have hs : s = [] := List.length_eq_zero.mp (Nat.le_zero.mp h1)
    subst hs
    cases f2 <;> simp [splitFuel, breakOn]
  | succ f1 ih =>
    intro f2 s h1 h2
    cases f2 with
    | zero =>
      have hs : s = [] := List.length_eq_zero.mp (Nat.le_zero.mp h2)
      subst hs
      simp [splitFuel, breakOn]
    | succ f2 =>
      unfold splitFuel
      cases hb : breakOn sep s with
      | none => rfl
      | some pr =>
        obtain ⟨p, r⟩ := pr
        have hs := breakOn_eq_some sep s p r hb
        have hpos : 0 < sep.length := List.length_pos.mpr hsep
        have hlen : r.length < s.length := by
          rw [hs]; simp only [List.length_append]; omega
        simp only
        rw [ih f2 r (by omega) (by omega)]

theorem split_of_breakOn_none (s sep : String) (h : breakOn sep.data s.data = none) :
    split s sep = [s] := by
  unfold split
  cases hn : s.length with
  | zero => simp [splitFuel]
  | succ n => simp [splitFuel, h]

theorem split_of_breakOn_some (s sep : String) (hsep : sep.data ≠ []) (before after : List Char)
    (h : breakOn sep.data s.data = some (before, after)) :
    split s sep = String.mk before :: split (String.mk after) sep := by
  have hs := breakOn_eq_some sep.data s.data before after h
  have hpos : 0 < sep.data.length := List.length_pos.mpr hsep
  have hlen : after.length < s.data.length := by
    rw [hs]; simp only [List.length_append]; omega
  unfold split
  have hl : s.length = (s.length - 1) + 1 := by
    have : s.length = s.data.length := rfl
    omega
  rw [hl]
  simp only [splitFuel, h, List.map_cons]
  congr 2
  apply splitFuel_fuel sep.data hsep
  · have : s.length = s.data.length := rfl
    omega
  · exact Nat.le_refl _

theorem data_ne_nil_of_ne_empty (sep : String) (h : sep ≠ "") : sep.data ≠ [] := by
  intro hd
  apply h
  apply String.ext
  simpa using hd

theorem split_spec (s sep : String) (hsep : sep ≠ "") :
    ∃ first rest, split s sep = first :: rest ∧ FirstLineAndRest sep s first rest := by
  have hd := data_ne_nil_of_ne_empty sep hsep
  cases hb : breakOn sep.data s.data with
  | none =>
    exact ⟨s, [], split_of_breakOn_none s sep hb,
      Or.inl ⟨breakOn_eq_none sep.data hd s.data hb, rfl, rfl⟩⟩
  | some pr =>
    obtain ⟨p, r⟩ := pr
    refine ⟨String.mk p, split (String.mk r) sep, split_of_breakOn_some s sep hd p r hb,
      Or.inr ⟨String.mk r, ?_, breakOn_first sep.data hd s.data p r hb, rfl⟩⟩
    apply String.ext
    simp only [String.data_append]
    exact breakOn_eq_some sep.data s.data p r hb

/-! ### `None.highlight` -/

/-- C8: for every diagnostic text `s` (the line separator of the host being a
non-empty text), `None.highlight(s)` returns `error = true` and an error
element whose message is the text of `s` before the first line separator (all
of `s` when there is none, the trace then being empty) and whose trace lists,
in order, the pieces of the text after that separator. -/
theorem None_highlight_first_line (host : Host) (hE : host.EOL ≠ "") (s : String) :
    ∃ first rest,
      None.highlight host s
        = { formattedOutput := .node (.outputError (some first) rest), error := true } ∧
      FirstLineAndRest host.EOL s first rest := by
  obtain ⟨first, rest, hsplit, hspec⟩ := split_spec s host.EOL hE
  refine ⟨first, rest, ?_, hspec⟩
  simp only [None.highlight, hsplit, List.head?_cons, List.tail_cons]

theorem None_highlight_first_line_witness :
    sampleHost.EOL ≠ "" ∧
    ∃ first rest,
      None.highlight sampleHost "TypeError: x is not defined\n  at foo (file:1:1)"
        = { formattedOutput := .node (.outputError (some first) rest), error := true } ∧
      FirstLineAndRest sampleHost.EOL "TypeError: x is not defined\n  at foo (file:1:1)"
        first rest :=
  ⟨by decide, None_highlight_first_line sampleHost (by decide) _⟩

/-- The example of the specification, evaluated. -/
theorem None_highlight_example :
    None.highlight sampleHost "TypeError: x is not defined\n  at foo (file:1:1)"
      = { formattedOutput :=
            .node (.outputError (some "TypeError: x is not defined") ["  at foo (file:1:1)"]),
          error := true } := by
  rfl

/-! ### `readProperty` and `Some.highlight` -/

theorem readProperty_of_read_ok (host : Host) (obj : Value) (prop : String) (v : Value)
    (h : (if obj.truthy then obj.get prop else pure obj) = .ok v) :
    readProperty host obj prop = .ok (.value v) := by
  unfold readProperty
  rw [h]
  rfl

theorem readProperty_of_read_throws (host : Host) (obj : Value) (prop : String) (e : Value)
    (h : (if obj.truthy then obj.get prop else pure obj) = .error e) :
    readProperty host obj prop
      = (transformObject host e).map (fun rendering => .node (.readError rendering)) := by
  unfold readProperty
  rw [h]
  show (transformObject host e >>= fun rendering => pure (ReadResult.node (Node.readError rendering)))
    = _
  cases transformObject host e <;> rfl

/-- C7: evaluation of `readProperty(obj, 'x')` where the getter of `x` throws an
object whose own `then` accessor throws `'inner'`. The `catch` block renders
the caught object, `ReplOutputType.object` reads its `then` member, and the
exception `'inner'` leaves `readProperty`: no read-error element is returned. -/
theorem readProperty_raises (host : Host) :
    readProperty host throwingGetter "x" = .error (.string "inner") := by
  rfl

/-- A read that throws an ordinary error object is rendered in place. -/
theorem readProperty_of_error_thrown (host : Host) (stack : String) :
    readProperty host
        (.object .plain [] ⟨false, false, false⟩ none [("x", true, .error (errorWithStack stack))])
        "x"
      = .ok (.node (.readError (.object (errorWithStack stack)
          (some (String.join [" ", host.display (.string "Error"), " \x7b\x7d"])) false))) := by
  rfl

theorem Some_highlight_of_isError (host : Host) (v : Value) (h : isError v = true) :
    Some.highlight host v
      = (v.get "stack").bind (fun stack =>
          match stack.text? with
          | some s =>
            .ok { formattedOutput :=
                    .node (.outputError (split s host.EOL).head? (split s host.EOL).tail),
                  error := false }
          | none => .error typeError) := by
  unfold Some.highlight
  simp only [h, if_true]
  cases v.get "stack" with
  | error e => rfl
  | ok stack =>
    cases hs : stack.text? with
    | none => simp [bind, Except.bind, hs, throw, throwThe, MonadExceptOf.throw]
    | some s => simp [bind, Except.bind, hs, pure, Except.pure]

theorem Some_highlight_of_not_isError (host : Host) (v : Value) (h : isError v = false) :
    Some.highlight host v
      = (transformObject host v).map (fun out =>
          { formattedOutput := .node out, error := false }) := by
  unfold Some.highlight
  simp only [h]
  cases transformObject host v with
  | error e => rfl
  | ok out => rfl

/-- C9, as stated, fails: for the held value `{ get then() { throw 'inner' } }`
the method `Some.highlight` raises `'inner'` and returns nothing. -/
theorem Some_highlight_raises :
    Some.highlight sampleHost hostileThenable = .error (.string "inner") ∧
      ¬ ∃ out, Some.highlight sampleHost hostileThenable = .ok out ∧ out.error = false := by
  have h : Some.highlight sampleHost hostileThenable = .error (.string "inner") := rfl
  refine ⟨h, ?_⟩
  rintro ⟨out, hout, _⟩
  rw [h] at hout
  exact Except.noConfusion hout

/-- C9, amended: whenever `Some(v).highlight()` returns, it returns
`error = false` and an element, never the raw value. When `v` is error-like
and its `stack` reads as a text, it returns the error element whose message
is the text of the stack before the first line separator and whose trace
lists the pieces after it. When `v` is not error-like and the formatter
chosen by `typeof v` returns an element, it returns that element. (The line
separator of the host is a non-empty text.) -/
theorem Some_highlight_when_no_throw (host : Host) (hE : host.EOL ≠ "") (v : Value) :
    (isError v = true → ∀ stack s, v.get "stack" = .ok stack → stack.text? = some s →
        ∃ first rest,
          Some.highlight host v
            = .ok { formattedOutput := .node (.outputError (some first) rest), error := false } ∧
          FirstLineAndRest host.EOL s first rest) ∧
    (isError v = false → ∀ out, transformObject host v = .ok out →
        Some.highlight host v = .ok { formattedOutput := .node out, error := false }) ∧
    (∀ h, Some.highlight host v = .ok h →
        h.error = false ∧ ∃ n, h.formattedOutput = .node n) := by
  refine ⟨?_, ?_, ?_⟩
  · intro hv stack s hstack htext
    obtain ⟨first, rest, hsplit, hspec⟩ := split_spec s host.EOL hE
    refine ⟨first, rest, ?_, hspec⟩
    rw [Some_highlight_of_isError host v hv, hstack]
    simp only [Except.bind, htext, hsplit, List.head?_cons, List.tail_cons]
  · intro hv out hout
    rw [Some_highlight_of_not_isError host v hv, hout]
    rfl
  · intro h hh
    cases hv : isError v with
    | true =>
      rw [Some_highlight_of_isError host v hv] at hh
      cases hstack : v.get "stack" with
      | error e => rw [hstack] at hh; exact Except.noConfusion hh
      | ok stack =>
        rw [hstack] at hh
        simp only [Except.bind] at hh
        cases htext : stack.text? with
        | none => rw [htext] at hh; exact Except.noConfusion hh
        | some s =>
          rw [htext] at hh
          simp only [Except.ok.injEq] at hh
          subst hh
          exact ⟨rfl, _, rfl⟩
    | false =>
      rw [Some_highlight_of_not_isError host v hv] at hh
      cases hout : transformObject host v with
      | error e => rw [hout] at hh; exact Except.noConfusion hh
      | ok out =>
        rw [hout] at hh
        simp only [Except.map, Except.ok.injEq] at hh
        subst hh
        exact ⟨rfl, _, rfl⟩

theorem Some_highlight_when_no_throw_witness :
    sampleHost.EOL ≠ "" ∧
    (∃ first rest,
      Some.highlight sampleHost (errorWithStack "Error: boom\n    at repl:1:1")
        = .ok { formattedOutput := .node (.outputError (some first) rest), error := false } ∧
      FirstLineAndRest sampleHost.EOL "Error: boom\n    at repl:1:1" first rest) ∧
    Some.highlight sampleHost (.number (.finite 3))
      = .ok { formattedOutput := .node (.integer (.finite 3)), error := false } :=
  ⟨by decide,
    (Some_highlight_when_no_throw sampleHost (by decide)
      (errorWithStack "Error: boom\n    at repl:1:1")).1 rfl _ _ rfl rfl,
    (Some_highlight_when_no_throw sampleHost (by decide) (.number (.finite 3))).2.1 rfl _ rfl⟩

/-- The error element for a held error value, evaluated. -/
theorem Some_highlight_example :
    Some.highlight sampleHost (errorWithStack "Error: boom\n    at repl:1:1")
      = .ok { formattedOutput := .node (.outputError (some "Error: boom") ["    at repl:1:1"]),
              error := false } := by
  rfl

/-! ### Numbers that are not integers -/

theorem strictEqInt_of_fract_ne_zero (x : ℤ) (q : ℚ) (h : Int.fract q ≠ 0) :
    JSNumber.strictEqInt x (.finite q) = false := by
  simp only [JSNumber.strictEqInt, decide_eq_false_iff_not]
  intro hq
  apply h
  rw [← hq]
  exact Int.fract_intCast x

/-- C11: for every number `n` that is non-finite (`NaN`, `+Infinity`,
`-Infinity`) or finite with a non-zero fractional part,
`ReplOutputType.number(n)` yields the generic numeric span, and so never the
integer element. -/
theorem number_of_non_integer (n : JSNumber)
    (h : n = .nan ∨ n = .posInf ∨ n = .negInf ∨ ∃ q, n = .finite q ∧ Int.fract q ≠ 0) :
    ReplOutputType.number n = .number n ∧ ReplOutputType.number n ≠ .integer n := by
  have hgen : ReplOutputType.number n = .number n := by
    rcases h with rfl | rfl | rfl | ⟨q, rfl, hq⟩
    · rfl
    · rfl
    · rfl
    · simp only [ReplOutputType.number, strictEqInt_of_fract_ne_zero _ q hq, Bool.and_false]
      rfl
  exact ⟨hgen, by rw [hgen]; exact fun hne => Node.noConfusion hne⟩

theorem number_of_non_integer_witness :
    (ReplOutputType.number (.finite (1 / 2)) = .number (.finite (1 / 2)) ∧
      ReplOutputType.number (.finite (1 / 2)) ≠ .integer (.finite (1 / 2))) ∧
    (ReplOutputType.number .nan = .number .nan ∧
      ReplOutputType.number .nan ≠ .integer .nan) :=
  ⟨number_of_non_integer (.finite (1 / 2))
      (Or.inr (Or.inr (Or.inr ⟨1 / 2, rfl, by norm_num [Int.fract]⟩))),
    number_of_non_integer .nan (Or.inl rfl)⟩

/-! ### The chunker leaves its input alone -/

theorem Store.read_set_self {α : Type} (σ : Store α) (r : Nat) (xs : List α)
    (h : r < σ.length) : Store.read (σ.set r xs) r = xs := by
  simp [Store.read, List.getD, h]

theorem Store.read_set_other {α : Type} (σ : Store α) (r r2 : Nat) (xs : List α)
    (h : r2 ≠ r) : Store.read (σ.set r xs) r2 = Store.read σ r2 := by
  simp [Store.read, List.getD, List.getElem?_set, Ne.symm h]

theorem Store.read_clone_new {α : Type} (σ : Store α) (a : Nat) :
    Store.read (σ.clone a).2 (σ.clone a).1 = Store.read σ a := by
  simp [Store.read, Store.clone, List.getD]

theorem Store.read_clone_old {α : Type} (σ : Store α) (a r : Nat) (h : r < σ.length) :
    Store.read (σ.clone a).2 r = Store.read σ r := by
  simp [Store.read, Store.clone, List.getD, List.getElem?_append_left h]

/-- On a valid reference the store version of `tokenize` computes what the
pure one computes on the content, and writes to no other array. -/
theorem tokenizeStore_eq {α : Type} (range mul : Nat) :
    ∀ (fuel : Nat) (σ : Store α) (arr : Nat) (result : List (ReplOutputArray α)),
      arr < σ.length →
      (tokenizeStore fuel σ arr result range mul).map (fun out => out.2)
          = tokenizeFuel fuel (σ.read arr) result range mul ∧
        ∀ out, tokenizeStore fuel σ arr result range mul = some out →
          out.1.length = σ.length ∧ ∀ r, r ≠ arr → out.1.read r = σ.read r := by
  intro fuel
  induction fuel with
  | zero => intro σ arr result _; exact ⟨rfl, fun out h => by simp [tokenizeStore] at h⟩
  | succ fuel ih =>
    intro σ arr result harr
    unfold tokenizeStore tokenizeFuel
    by_cases hlt : (σ.read arr).length < range
    · simp only [hlt, if_true, Option.map_some']
      refine ⟨trivial, ?_⟩
      intro out hout
      simp only [Option.some.injEq] at hout
      subst hout
      exact ⟨rfl, fun r _ => rfl⟩
    · simp only [hlt, if_false]
      have hlen : (σ.splice arr range).2.length = σ.length := by
        simp [Store.splice]
      have hread : (σ.splice arr range).2.read arr = (σ.read arr).drop range := by
        simp only [Store.splice]
        exact Store.read_set_self σ arr _ harr
      obtain ⟨h1, h2⟩ := ih (σ.splice arr range).2 arr
        (result ++ [⟨(σ.splice arr range).1,
          rangeLabel ((result.length * range * mul : Nat) : Int)
            ((((result.length + 1) * range * mul : Nat) : Int) - 1),
          ((result.length * range * mul : Nat) : Int), false, none⟩]) (by rw [hlen]; exact harr)
      refine ⟨?_, ?_⟩
      · rw [h1, hread]
        rfl
      · intro out hout
        obtain ⟨h3, h4⟩ := h2 out hout
        refine ⟨by rw [h3, hlen], fun r hr => ?_⟩
        rw [h4 r hr]
        simp only [Store.splice]
        exact Store.read_set_other σ arr r _ hr

theorem arrayStore_eq {α : Type} (σ : Store α) (a : Nat) (ha : a < σ.length) :
    ∃ σ2, ReplOutputType.arrayStore σ a
        = (ReplOutputType.array (σ.read a)).map (fun out => (σ2, out)) ∧
      ∀ r, r < σ.length → σ2.read r = σ.read r := by
  have harr : (σ.clone a).1 < (σ.clone a).2.length := by
    simp [Store.clone]
  obtain ⟨h1, h2⟩ := tokenizeStore_eq 100 1 (((σ.clone a).2.read (σ.clone a).1).length + 1)
    (σ.clone a).2 (σ.clone a).1 [] harr
  rw [Store.read_clone_new] at h1 h2
  have hpure : tokenizeFuel ((σ.read a).length + 1) (σ.read a) [] 100 1
      = some (leafChunks (σ.read a)) := tokenize_first_pass (σ.read a)
  rw [hpure] at h1
  cases hts : tokenizeStore ((σ.read a).length + 1) (σ.clone a).2 (σ.clone a).1 [] 100 1 with
  | none => rw [hts] at h1; simp at h1
  | some first =>
    rw [hts] at h1
    simp only [Option.map_some', Option.some.injEq] at h1
    obtain ⟨_, hframe⟩ := h2 first hts
    have hold : ∀ r, r < σ.length → first.1.read r = σ.read r := by
      intro r hr
      have hne : r ≠ (σ.clone a).1 := by
        simp only [Store.clone]; omega
      rw [hframe r hne, Store.read_clone_old σ a r hr]
    refine ⟨first.1, ?_, hold⟩
    unfold ReplOutputType.arrayStore ReplOutputType.array
    simp only [Store.read_clone_new, hts, tokenize_first_pass, Option.bind_eq_bind,
      Option.some_bind, h1, hold a ha]
    by_cases hbig : (leafChunks (σ.read a)).length > 100
    · simp only [hbig, if_true]
      cases tokenize (leafChunks (σ.read a)) [] 100 100 with
      | none => rfl
      | some arr1000 =>
        simp only [Option.some_bind]
        by_cases hroot : arr1000.length > 1
        · simp [hroot]
        · simp [hroot]
    · simp only [hbig, if_false]
      by_cases hroot : (leafChunks (σ.read a)).length > 1
      · simp [hroot]
      · simp [hroot]

/-- C12: `ReplOutputType.array` does not change its input. Called on the
array at a reference `a` of a store of mutable arrays, it returns, and in the
final store the array at `a`, like every array that existed before the call,
has the same items in the same order (every `splice` is applied to the clone);
the result is the one computed from the items of `a`. -/
theorem arrayStore_leaves_input {α : Type} (σ : Store α) (a : Nat) (ha : a < σ.length) :
    ∃ σ2 out, ReplOutputType.arrayStore σ a = some (σ2, out) ∧
      σ2.read a = σ.read a ∧
      (∀ r, r < σ.length → σ2.read r = σ.read r) ∧
      ReplOutputType.array (σ.read a) = some out := by
  obtain ⟨σ2, heq, hold⟩ := arrayStore_eq σ a ha
  have hpure := array_eq (σ.read a)
  rw [hpure] at heq
  exact ⟨σ2, _, heq, hold a ha, hold, hpure⟩

set_option maxRecDepth 100000 in
theorem arrayStore_leaves_input_witness :
    (1 : Nat) < ([[7], List.range 250] : Store Nat).length ∧
    ∃ σ2 out, ReplOutputType.arrayStore ([[7], List.range 250] : Store Nat) 1 = some (σ2, out) ∧
      σ2.read 1 = Store.read ([[7], List.range 250] : Store Nat) 1 ∧
      (∀ r, r < ([[7], List.range 250] : Store Nat).length →
        σ2.read r = Store.read ([[7], List.range 250] : Store Nat) r) ∧
      ReplOutputType.array (Store.read ([[7], List.range 250] : Store Nat) 1) = some out :=
  ⟨by decide, arrayStore_leaves_input ([[7], List.range 250] : Store Nat) 1 (by decide)⟩

set_option maxRecDepth 100000 in
/-- The clone, not the input, is consumed: after the call on 250 items the
store holds the input unchanged and, at the new reference, the 50 items that
no `splice` removed. -/
theorem arrayStore_example :
    (ReplOutputType.arrayStore ([List.range 250] : Store Nat) 0).map (fun out => out.1)
      = some [List.range 250, (List.range 50).map (fun i => i + 200)] := by
  decide!

/-! ### The leaf chunks partition the input -/

theorem flatMap_leafChunks {α : Type} (a : List α) :
    (leafChunks a).flatMap (fun c => c.array) = a := by
  simp only [leafChunks, List.flatMap_map, chunkAt]
  exact bind_take_drop 100 (by decide) _ a rfl

theorem array_leaves {α : Type} (a : List α) :
    ∃ out, ReplOutputType.array a = some out ∧ out.leaves = leafChunks a := by
  refine ⟨_, array_eq a, ?_⟩
  by_cases h1 : 10000 ≤ a.length
  · rw [if_pos h1]
    exact bind_groupChunks a
  · by_cases h2 : 100 ≤ a.length
    · rw [if_neg h1, if_pos h2]; rfl
    · rw [if_neg h1, if_neg h2]; rfl

theorem length_of_leafChunks_getElem? {α : Type} (a : List α) (i : Nat)
    (c : ReplOutputArray α) (hi : i + 1 < (leafChunks a).length)
    (hc : (leafChunks a)[i]? = some c) : c.array.length = 100 := by
  rw [length_leafChunks] at hi
  have hi2 : i < a.length / 100 + 1 := by omega
  simp only [leafChunks, List.getElem?_map, List.getElem?_range hi2, Option.map_some',
    Option.some.injEq] at hc
  subst hc
  simp only [chunkAt, List.length_take, List.length_drop]
  omega

/-- C18: for every array `a`, `ReplOutputType.array` returns a tree whose leaf
chunks, read from left to right (through the second-tier groups when there
are groups), hold exactly the items of `a` in their order; and every leaf
chunk but the last holds exactly 100 items. -/
theorem array_items_eq {α : Type} (a : List α) :
    ∃ out, ReplOutputType.array a = some out ∧
      out.items = a ∧
      ∀ i c, i + 1 < out.leaves.length → out.leaves[i]? = some c → c.array.length = 100 := by
  obtain ⟨out, hout, hleaves⟩ := array_leaves a
  refine ⟨out, hout, ?_, ?_⟩
  · rw [ArrayOutput.items, hleaves]
    exact flatMap_leafChunks a
  · intro i c hi hc
    rw [hleaves] at hi hc
    exact length_of_leafChunks_getElem? a i c hi hc

set_option maxRecDepth 100000 in
theorem array_items_eq_witness :
    ∃ out, ReplOutputType.array (List.range 250) = some out ∧
      out.items = List.range 250 ∧
      (∀ c, out.leaves[0]? = some c → c.array.length = 100) ∧
      (∀ c, out.leaves[1]? = some c → c.array.length = 100) := by
  obtain ⟨out, h1, h2, h3⟩ := array_items_eq (List.range 250)
  have hlen : out.leaves.length = 3 := by
    obtain ⟨out2, h4, h5⟩ := array_leaves (List.range 250)
    rw [h1] at h4
    cases h4
    rw [h5, length_leafChunks]
    decide
  exact ⟨out, h1, h2, fun c hc => h3 0 c (by rw [hlen]; decide) hc,
    fun c hc => h3 1 c (by rw [hlen]; decide) hc⟩

/-! ### `ReplOutputType.object` -/

theorem object_eq_firstMatch (host : Host) (o : Value) :
    ReplOutputType.object host o = firstMatch (objectRules host) o := by
  unfold ReplOutputType.object objectRules
  simp only [firstMatch, renderArray, thenable, inspectPolyfilled, inspectNative,
    renderGenericObject, bind, Except.bind, pure, Except.pure, throw, throwThe,
    MonadExceptOf.throw]
  cases h1 : o.arrayElements? with
  | some a => rfl
  | none =>
    simp only [Option.isSome_none, Bool.false_eq_true, if_false]
    cases h2 : isRegExp o <;> simp only [if_true, Bool.false_eq_true, if_false]
    cases h3 : isNull o <;> simp only [if_true, Bool.false_eq_true, if_false]
    cases h4 : (isNumber? o).isSome <;> simp only [if_true, Bool.false_eq_true, if_false]
    cases h5 : (isBoolean? o).isSome <;> simp only [if_true, Bool.false_eq_true, if_false]
    cases h7 : o.flags.instanceOfBabelPromise <;> cases h8 : makeMirror o <;>
      cases h6 : o.flags.instanceOfPromise <;>
      simp only [if_true, Bool.false_eq_true, if_false, Bool.or_false, Bool.or_true,
        Bool.and_false, Bool.and_true, Option.isSome_none, Option.isSome_some, Bool.true_and,
        Bool.false_and] <;>
      first
        | rfl
        | (cases h9 : o.get "then" with
            | error e => rfl
            | ok member =>
              cases h10 : member.truthy <;>
                simp only [h10, if_true, Bool.false_eq_true, if_false, Bool.or_false,
                  Bool.or_true, Bool.and_false, Bool.and_true, Bool.true_and, Bool.false_and,
                  ite_self])

/-- C13, as stated, fails: the object `{ get then() { throw 'inner' } }`
satisfies the condition of no rule before the generic object (it is no array,
regular expression, null, boxed number or boolean, no instance of the
polyfilled constructor, unknown to the mirror, no buffer) and the generic
rendering of it exists, yet `ReplOutputType.object` raises `'inner'` and
returns no rendering. -/
theorem object_raises_on_throwing_then :
    ReplOutputType.object sampleHost hostileThenable = .error (.string "inner") ∧
      hostileThenable.arrayElements? = none ∧ isRegExp hostileThenable = false ∧
      isNull hostileThenable = false ∧ isNumber? hostileThenable = none ∧
      isBoolean? hostileThenable = none ∧
      hostileThenable.flags.instanceOfBabelPromise = false ∧
      makeMirror hostileThenable = none ∧ isBuffer hostileThenable = false ∧
      renderGenericObject sampleHost hostileThenable
        = .ok (.object hostileThenable none false) :=
  ⟨rfl, rfl, rfl, rfl, rfl, rfl, rfl, rfl, rfl, rfl⟩

/-- C13, amended: `ReplOutputType.object` tries the eight rules in the order
array, regular expression, null, boxed number, boxed boolean, promise of a
known family, byte buffer, generic object, and the first rule whose condition
holds renders the value; a condition or a rendering that raises (the read of
`then`, the reads of the state holder, the label probes) ends the call with
that exception. In particular `null` yields the literal `null`, an array is
rendered by the array chunker whatever its other members, and a boxed number
or boolean yields the primitive span of type name `Number` or `Boolean`. -/
theorem object_first_match_wins (host : Host) :
    (objectRules host).map (fun rule => rule.name)
        = ["array", "regular expression", "null", "boxed number", "boxed boolean",
           "promise of a known family", "byte buffer", "generic object"] ∧
      (∀ o, ReplOutputType.object host o = firstMatch (objectRules host) o) ∧
      ReplOutputType.object host .null = .ok (.literal "null") ∧
      (∀ elements flags mirror props, ∃ out,
        ReplOutputType.array elements = some out ∧
        ReplOutputType.object host (.object .array elements flags mirror props)
          = .ok (.array out)) ∧
      (∀ n elements flags mirror props,
        ReplOutputType.object host (.object (.numberObject n) elements flags mirror props)
          = .ok (.primitive "Number \x7b" "number" (host.numberToString n) "\x7d")) ∧
      (∀ b elements flags mirror props,
        ReplOutputType.object host (.object (.booleanObject b) elements flags mirror props)
          = .ok (.primitive "Boolean \x7b" "literal" (toString b) "\x7d")) := by
  refine ⟨rfl, object_eq_firstMatch host, rfl, ?_, ?_, ?_⟩
  · intro elements flags mirror props
    refine ⟨_, array_eq elements, ?_⟩
    rw [object_eq_firstMatch]
    simp only [objectRules, firstMatch, Value.arrayElements?, renderArray, array_eq elements,
      bind, Except.bind, pure, Except.pure, Option.isSome_some, if_true]
  · intro n elements flags mirror props
    rfl
  · intro b elements flags mirror props
    rfl

theorem object_of_plain_thenable (host : Host) (o : Value) (hkind : o.kind? = some .plain)
    (hthen : thenable o = .ok true) :
    ReplOutputType.object host o
      = if o.flags.instanceOfBabelPromise then inspectPolyfilled o
        else
          match makeMirror o with
          | some (status, value) => .ok (ReplOutputType.promise status value o)
          | none => renderGenericObject host o := by
  rw [object_eq_firstMatch]
  cases o with
  | object kind elements flags mirror props =>
    simp only [Value.kind?, Option.some.injEq] at hkind
    subst hkind
    simp only [objectRules, firstMatch, hthen, Value.arrayElements?, isRegExp, isNull, isNumber?,
      isBoolean?, isBuffer, Value.kind?, inspectNative, bind, Except.bind, pure, Except.pure,
      Option.isSome_none, Bool.false_eq_true, if_false, Bool.true_and]
    cases hb : (Value.object ObjectKind.plain elements flags mirror props).flags.instanceOfBabelPromise
    · cases hm : makeMirror (Value.object ObjectKind.plain elements flags mirror props) with
      | none => simp [hb]
      | some sv => simp [hb]
    · simp [hb]
  | _ => simp [Value.kind?] at hkind

/-- C14: for every promise `o` of the polyfilled family whose first own
property reads as a state holder with state code `s` and stored value `v`,
`ReplOutputType.object` returns the promise element with the promise itself
as native reference, the value `v`, and the status `pending` when `s = 0`,
`resolved` when `s = 1`, `rejected` when `s = 2`. -/
theorem object_of_polyfilled_promise (host : Host) (o : Value) (name : String)
    (holder : Value) (s : ℚ) (v : Value) (ho : IsPolyfilledPromise o)
    (hname : o.firstOwnPropertyName = some name) (hholder : o.get name = .ok holder)
    (hs : holder.get "s" = .ok (.number (.finite s))) (hv : holder.get "v" = .ok v) :
    (s = 0 → ReplOutputType.object host o = .ok (.promise "pending" v o)) ∧
    (s = 1 → ReplOutputType.object host o = .ok (.promise "resolved" v o)) ∧
    (s = 2 → ReplOutputType.object host o = .ok (.promise "rejected" v o)) := by
  obtain ⟨hkind, hbabel, hthen⟩ := ho
  have hobj := object_of_plain_thenable host o hkind hthen
  rw [hbabel, if_pos rfl] at hobj
  have hins : ∀ status : String,
      (if Value.strictEqNumber (.number (.finite s)) 0 then "pending"
        else if Value.strictEqNumber (.number (.finite s)) 1 then "resolved" else "rejected")
        = status →
      inspectPolyfilled o = .ok (.promise status v o) := by
    intro status hstatus
    simp only [inspectPolyfilled, hname, Option.getD_some, hholder, hs, hv, bind, Except.bind,
      pure, Except.pure, ReplOutputType.promise]
    by_cases h0 : Value.strictEqNumber (.number (.finite s)) 0 = true
    · simp only [h0, if_true] at hstatus ⊢
      rw [hstatus]
    · simp only [h0, Bool.false_eq_true, if_false] at hstatus ⊢
      rw [hstatus]
  refine ⟨fun h => ?_, fun h => ?_, fun h => ?_⟩ <;> subst h <;> rw [hobj] <;> apply hins <;>
    simp [Value.strictEqNumber]

theorem object_of_polyfilled_promise_witness :
    IsPolyfilledPromise (polyfilledPromise 0 (.string "later")) ∧
    ReplOutputType.object sampleHost (polyfilledPromise 0 (.string "later"))
      = .ok (.promise "pending" (.string "later") (polyfilledPromise 0 (.string "later"))) ∧
    ReplOutputType.object sampleHost (polyfilledPromise 1 (.string "done"))
      = .ok (.promise "resolved" (.string "done") (polyfilledPromise 1 (.string "done"))) ∧
    ReplOutputType.object sampleHost (polyfilledPromise 2 (.string "failed"))
      = .ok (.promise "rejected" (.string "failed") (polyfilledPromise 2 (.string "failed"))) :=
  ⟨⟨rfl, rfl, rfl⟩,
    (object_of_polyfilled_promise sampleHost (polyfilledPromise 0 (.string "later")) "_d" _ 0 _
      ⟨rfl, rfl, rfl⟩ rfl rfl rfl rfl).1 rfl,
    (object_of_polyfilled_promise sampleHost (polyfilledPromise 1 (.string "done")) "_d" _ 1 _
      ⟨rfl, rfl, rfl⟩ rfl rfl rfl rfl).2.1 rfl,
    (object_of_polyfilled_promise sampleHost (polyfilledPromise 2 (.string "failed")) "_d" _ 2 _
      ⟨rfl, rfl, rfl⟩ rfl rfl rfl rfl).2.2 rfl⟩

theorem renderGenericObject_ne_promise (host : Host) (o : Value) (status : String)
    (value p : Value) : renderGenericObject host o ≠ .ok (.promise status value p) := by
  unfold renderGenericObject
  cases getObjectLabels host o with
  | error e => exact fun h => Except.noConfusion h
  | ok label =>
    intro h
    simp only [bind, Except.bind, pure, Except.pure, Except.ok.injEq] at h
    exact Node.noConfusion h

theorem object_of_unknown_family (host : Host) (o : Value)
    (hkind : o.arrayElements? = none ∧ isRegExp o = false ∧ isNull o = false ∧
      isNumber? o = none ∧ isBoolean? o = none)
    (hthen : ∃ t, thenable o = .ok t)
    (hbabel : o.flags.instanceOfBabelPromise = false) (hmirror : makeMirror o = none) :
    ReplOutputType.object host o
      = if isBuffer o then .ok (.buffer o) else renderGenericObject host o := by
  obtain ⟨h1, h2, h3, h4, h5⟩ := hkind
  obtain ⟨t, ht⟩ := hthen
  rw [object_eq_firstMatch]
  simp only [objectRules, firstMatch, h1, h2, h3, h4, h5, ht, hbabel, hmirror, bind, Except.bind,
    pure, Except.pure, Option.isSome_none, Bool.false_eq_true, if_false, Bool.or_false,
    Bool.and_false, ReplOutputType.buffer, if_true]

/-- C15, as stated, fails: the array `[]` with an added member `then` has a
truthy `then`, is no instance of the polyfilled constructor and is unknown to
the mirror, yet the result is neither the buffer element nor the generic
object element: the array rule comes first and the array chunker renders it. -/
theorem object_of_array_with_then :
    (∃ member, arrayWithThen.get "then" = .ok member ∧ member.truthy = true) ∧
      arrayWithThen.flags.instanceOfBabelPromise = false ∧ makeMirror arrayWithThen = none ∧
      ReplOutputType.object sampleHost arrayWithThen
        = .ok (.array (.chunks [⟨[], "Array[0]", 0, false, none⟩])) ∧
      ReplOutputType.object sampleHost arrayWithThen ≠ .ok (.buffer arrayWithThen) ∧
      ∀ label primitive, ReplOutputType.object sampleHost arrayWithThen
        ≠ .ok (.object arrayWithThen label primitive) := by
  have h : ReplOutputType.object sampleHost arrayWithThen
      = .ok (.array (.chunks [⟨[], "Array[0]", 0, false, none⟩])) := rfl
  refine ⟨⟨_, rfl, rfl⟩, rfl, rfl, h, ?_, ?_⟩
  · rw [h]; intro hne; cases hne
  · intro label primitive; rw [h]; intro hne; cases hne

/-- C15, amended: for every value that is not an array, a regular expression,
a boxed number or a boxed boolean, and that has a truthy `then` member but is
neither an instance of the polyfilled promise constructor nor recognised as a
promise by the mirror, `ReplOutputType.object` produces no promise element;
it returns the buffer element if the value is a byte buffer, and otherwise
what the generic object rule yields: the generic object element with the
label of `getObjectLabels`, or the exception a label probe raises. -/
theorem object_of_unknown_thenable (host : Host) (o member : Value)
    (hkind : o.arrayElements? = none ∧ isRegExp o = false ∧ isNumber? o = none ∧
      isBoolean? o = none)
    (hthen : o.get "then" = .ok member) (htruthy : member.truthy = true)
    (hbabel : o.flags.instanceOfBabelPromise = false) (hmirror : makeMirror o = none) :
    (∀ status value p, ReplOutputType.object host o ≠ .ok (.promise status value p)) ∧
    (isBuffer o = true → ReplOutputType.object host o = .ok (.buffer o)) ∧
    (isBuffer o = false →
      ReplOutputType.object host o = renderGenericObject host o ∧
      ∀ label, getObjectLabels host o = .ok label →
        ReplOutputType.object host o = .ok (.object o label (isString o))) := by
  have hnull : isNull o = false := by
    cases o <;> first | rfl | (simp [Value.get] at hthen)
  have hthenable : ∃ t, thenable o = .ok t := by
    refine ⟨true, ?_⟩
    unfold thenable
    by_cases hp : o.flags.instanceOfPromise = true
    · rw [if_pos hp]; rfl
    · rw [if_neg hp, hthen]
      simp only [bind, Except.bind, pure, Except.pure, htruthy]
  have hobj := object_of_unknown_family host o
    ⟨hkind.1, hkind.2.1, hnull, hkind.2.2.1, hkind.2.2.2⟩ hthenable hbabel hmirror
  refine ⟨?_, ?_, ?_⟩
  · intro status value p
    rw [hobj]
    by_cases hb : isBuffer o = true
    · rw [if_pos hb]; intro hne; cases hne
    · rw [if_neg hb]; exact renderGenericObject_ne_promise host o status value p
  · intro hb
    rw [hobj, if_pos hb]
  · intro hb
    have hgen : ReplOutputType.object host o = renderGenericObject host o := by
      rw [hobj, hb]; rfl
    refine ⟨hgen, ?_⟩
    intro label hlabel
    rw [hgen, renderGenericObject, hlabel]
    rfl

theorem object_of_unknown_thenable_witness :
    (∀ status value p,
      ReplOutputType.object sampleHost plainThenable ≠ .ok (.promise status value p)) ∧
    ReplOutputType.object sampleHost plainThenable = .ok (.object plainThenable none false) :=
  ⟨(object_of_unknown_thenable sampleHost plainThenable _ ⟨rfl, rfl, rfl, rfl⟩ rfl rfl rfl rfl).1,
    ((object_of_unknown_thenable sampleHost plainThenable _ ⟨rfl, rfl, rfl, rfl⟩ rfl rfl rfl
      rfl).2.2 rfl).2 none rfl⟩

theorem getObjectLabels_of_not_buffer (host : Host) (o : Value) (label : Option String)
    (hb : isBuffer o = false) (h : getObjectLabels host o = .ok label) :
    ∃ marker, o.get "_isReactElement" = .ok marker ∧
      ((marker.truthy = true ∧ label = some " ReactElement \x7b\x7d") ∨
       (marker.truthy = false ∧ o.flags.instanceOfError = true ∧
          ∃ name, o.get "name" = .ok name ∧
            label = some (String.join [" ", host.display name, " \x7b\x7d"])) ∨
       (marker.truthy = false ∧ o.flags.instanceOfError = false ∧ label = none)) := by
  unfold getObjectLabels at h
  cases hm : o.get "_isReactElement" with
  | error e => rw [hm] at h; exact Except.noConfusion h
  | ok marker =>
    refine ⟨marker, rfl, ?_⟩
    rw [hm] at h
    simp only [bind, Except.bind, pure, Except.pure] at h
    cases ht : marker.truthy with
    | true =>
      simp only [ht, if_true, Except.ok.injEq] at h
      exact Or.inl ⟨rfl, h.symm⟩
    | false =>
      simp only [ht, Bool.false_eq_true, if_false] at h
      cases he : o.flags.instanceOfError with
      | true =>
        simp only [he, if_true] at h
        cases hn : o.get "name" with
        | error e => rw [hn] at h; exact Except.noConfusion h
        | ok name =>
          rw [hn] at h
          simp only [Except.ok.injEq] at h
          exact Or.inr (Or.inl ⟨rfl, rfl, name, rfl, h.symm⟩)
      | false =>
        simp only [he, hb, Bool.false_eq_true, if_false, Except.ok.injEq] at h
        exact Or.inr (Or.inr ⟨rfl, rfl, h.symm⟩)

theorem inspectPolyfilled_ne_object (o x : Value) (label : Option String) (prim : Bool) :
    inspectPolyfilled o ≠ .ok (.object x label prim) := by
  unfold inspectPolyfilled
  simp only [bind, Except.bind, pure, Except.pure, ReplOutputType.promise]
  intro h
  repeat' split at h
  all_goals first | exact Except.noConfusion h | (injection h with h; exact Node.noConfusion h)

theorem object_generic_inv (host : Host) (o x : Value) (label : Option String) (prim : Bool)
    (h : ReplOutputType.object host o = .ok (.object x label prim)) :
    isBuffer o = false ∧ renderGenericObject host o = .ok (.object x label prim) := by
  rw [object_eq_firstMatch] at h
  simp only [objectRules, firstMatch, renderArray, thenable, inspectNative,
    bind, Except.bind, pure, Except.pure, throw, throwThe, MonadExceptOf.throw,
    ReplOutputType.regexp, ReplOutputType.null, ReplOutputType.primitive,
    ReplOutputType.promise, ReplOutputType.buffer] at h
  have hpoly := inspectPolyfilled_ne_object o x label prim
  repeat' split at h
  all_goals first
    | exact Except.noConfusion h
    | exact absurd h hpoly
    | (injection h with h; exact Node.noConfusion h)
    | exact ⟨Bool.eq_false_iff.mpr (by assumption), h⟩

/-- C19: whenever `ReplOutputType.object` returns the generic object element
for a value, the value is no byte buffer (buffers are returned as buffer
elements before), the element holds the value itself, its primitive flag is
`_.isString` of the value, and its label is ` ReactElement {}` when the
React-element marker is truthy, otherwise ` <name> {}` when the value is an
instance of `Error`, otherwise none: the buffer branch of `getObjectLabels`
is never the one that yields it. -/
theorem object_generic_label (host : Host) (o x : Value) (label : Option String) (prim : Bool)
    (h : ReplOutputType.object host o = .ok (.object x label prim)) :
    isBuffer o = false ∧ x = o ∧ prim = isString o ∧
      ∃ marker, o.get "_isReactElement" = .ok marker ∧
        ((marker.truthy = true ∧ label = some " ReactElement \x7b\x7d") ∨
         (marker.truthy = false ∧ o.flags.instanceOfError = true ∧
            ∃ name, o.get "name" = .ok name ∧
              label = some (String.join [" ", host.display name, " \x7b\x7d"])) ∨
         (marker.truthy = false ∧ o.flags.instanceOfError = false ∧ label = none)) := by
  obtain ⟨hb, hgen⟩ := object_generic_inv host o x label prim h
  unfold renderGenericObject at hgen
  cases hl : getObjectLabels host o with
  | error e => rw [hl] at hgen; exact Except.noConfusion hgen
  | ok l =>
    rw [hl] at hgen
    simp only [bind, Except.bind, pure, Except.pure, Except.ok.injEq, Node.object.injEq] at hgen
    obtain ⟨h1, h2, h3⟩ := hgen
    subst h1 h2 h3
    exact ⟨hb, rfl, rfl, getObjectLabels_of_not_buffer host o l hb hl⟩

theorem object_generic_label_witness :
    ReplOutputType.object sampleHost (errorWithStack "Error: boom")
        = .ok (.object (errorWithStack "Error: boom") (some " Error \x7b\x7d") false) ∧
      isBuffer (errorWithStack "Error: boom") = false ∧
      false = isString (errorWithStack "Error: boom") :=
  ⟨rfl,
    (object_generic_label sampleHost (errorWithStack "Error: boom") _
      (some " Error \x7b\x7d") false rfl).1,
    (object_generic_label sampleHost (errorWithStack "Error: boom") _
      (some " Error \x7b\x7d") false rfl).2.2.1⟩

/-- A byte buffer never reaches the generic object rule. -/
theorem object_of_buffer_not_generic (host : Host) (o x : Value) (label : Option String)
    (prim : Bool) (hb : isBuffer o = true) :
    ReplOutputType.object host o ≠ .ok (.object x label prim) := by
  intro h
  have := (object_generic_inv host o x label prim h).1
  rw [hb] at this
  exact Bool.noConfusion this

/-! ### `ReplOutput.asObject` and `ReplOutput.readProperty` -/

/-- C16: evaluation of `asObject(value, 'toString')` for any value. The name
`toString` is none of the thirteen recognised tags, yet `ReplOutputType['toString']`
is the function inherited from `Object.prototype`, it is truthy and is
called, and `asObject` returns the text `[object Object]`, not `undefined`. -/
theorem asObject_toString (host : Host) (value : Value) :
    "toString" ∉ ReplOutputType.tags ∧
      asObject host value "toString" = .ok (.value (.string "[object Object]")) ∧
      asObject host value "toString" ≠ .ok (.value .undefined) := by
  have h : asObject host value "toString" = .ok (.value (.string "[object Object]")) := rfl
  refine ⟨by decide, h, ?_⟩
  rw [h]
  intro hne
  injection hne with hne
  injection hne with hne
  exact Value.noConfusion hne

/-- A name that is neither a tag nor inherited yields `undefined`. -/
theorem asObject_of_unknown (host : Host) (value : Value) (type : String)
    (h1 : type ∉ ReplOutputType.tags) (h2 : type ∉ objectPrototypeNames) :
    asObject host value type = .ok (.value .undefined) := by
  simp only [asObject, ReplOutputType.member?, h1, h2, if_false]
  rfl

/-- A recognised tag yields what its formatter makes of the value. -/
theorem asObject_of_tag (host : Host) (value : Value) (type : String)
    (h : type ∈ ReplOutputType.tags) :
    asObject host value type = callFormatter host type value := by
  simp only [asObject, ReplOutputType.member?, h, if_true]

/-- C17, as stated, fails: reading `''['length']` does not throw and gives
`0`, yet `readProperty('', 'length')` returns the empty string itself. -/
theorem readProperty_of_empty_string :
    (Value.string "").get "length" = .ok (.number (.finite 0)) ∧
      readProperty sampleHost (.string "") "length" = .ok (.value (.string "")) ∧
      readProperty sampleHost (.string "") "length" ≠ .ok (.value (.number (.finite 0))) := by
  have h : readProperty sampleHost (.string "") "length" = .ok (.value (.string "")) := rfl
  refine ⟨rfl, h, ?_⟩
  rw [h]
  intro hne
  injection hne with hne
  injection hne with hne
  exact Value.noConfusion hne

/-- C17, amended: for every truthy value `obj` and property name `prop` such
that reading `obj[prop]` does not throw, `readProperty(obj, prop)` returns the
value of that property; for a falsy `obj` (the empty string, `0`, `NaN`,
`false`, `null`, `undefined`) it reads nothing and returns `obj` itself. -/
theorem readProperty_of_read (host : Host) (obj : Value) (prop : String) :
    (obj.truthy = true → ∀ v, obj.get prop = .ok v →
        readProperty host obj prop = .ok (.value v)) ∧
    (obj.truthy = false → readProperty host obj prop = .ok (.value obj)) := by
  constructor
  · intro ht v hv
    apply readProperty_of_read_ok
    rw [if_pos ht, hv]
  · intro hf
    apply readProperty_of_read_ok
    rw [if_neg (by rw [hf]; exact Bool.false_ne_true)]
    rfl

theorem readProperty_of_read_witness :
    readProperty sampleHost (.string "abc") "length" = .ok (.value (.number (.finite 3))) ∧
      readProperty sampleHost (.number (.finite 0)) "toFixed"
        = .ok (.value (.number (.finite 0))) :=
  ⟨(readProperty_of_read sampleHost (.string "abc") "length").1 rfl _ rfl,
    (readProperty_of_read sampleHost (.number (.finite 0)) "toFixed").2 rfl⟩

/-! ### The bound on the number of children -/

theorem tokenizeFuel_eq_none {β : Type} (range mul : Nat) (hr : 0 < range) :
    ∀ (fuel : Nat) (arr : List β) (result : List (ReplOutputArray β)),
      fuel ≤ arr.length / range → tokenizeFuel fuel arr result range mul = none := by
  intro fuel
  induction fuel with
  | zero => intro arr result _; rfl
  | succ fuel ih =>
    intro arr result h
    have hge : range ≤ arr.length := by
      rcases Nat.lt_or_ge arr.length range with hlt | hge
      · rw [Nat.div_eq_of_lt hlt] at h; exact absurd h (Nat.not_succ_le_zero fuel)
      · exact hge
    have hq : arr.length / range = (arr.length - range) / range + 1 := by
      rw [← Nat.sub_add_cancel hge, Nat.add_div_right _ hr, Nat.add_sub_cancel]
    unfold tokenizeFuel
    simp only [Nat.not_lt.mpr hge, if_false]
    apply ih
    rw [List.length_drop]
    rw [hq] at h
    exact Nat.le_of_succ_le_succ h

/-- On a call stack with room for `depth` nested calls the formatter returns
what it returns on an unbounded one when the first pass fits, and raises
otherwise. -/
theorem arrayWithin_eq {α : Type} (depth : Nat) (a : List α) :
    ReplOutputType.arrayWithin depth a
      = if a.length / 100 < depth then ReplOutputType.array a else none := by
  by_cases h : a.length / 100 < depth
  · rw [if_pos h]
    have h1 : tokenizeFuel depth a [] 100 1 = some (leafChunks a) := by
      rw [tokenizeFuel_eq 100 1 (by decide) depth a [] h]
      simp [leafChunks]
    have h2 : (leafChunks a).length > 100 →
        tokenizeFuel depth (leafChunks a) [] 100 100 = some (groupChunks a) := by
      intro hbig
      rw [length_leafChunks] at hbig
      rw [tokenizeFuel_eq 100 100 (by decide) depth (leafChunks a) []
        (by rw [length_leafChunks]; omega)]
      simp [groupChunks]
    unfold ReplOutputType.arrayWithin ReplOutputType.array
    simp only [h1, tokenize_first_pass, Option.bind_eq_bind, Option.some_bind]
    by_cases hbig : (leafChunks a).length > 100
    · simp only [hbig, if_true, h2 hbig, tokenize_second_pass]
    · simp only [hbig, if_false]
  · rw [if_neg h]
    unfold ReplOutputType.arrayWithin
    simp only [tokenizeFuel_eq_none 100 1 (by decide) depth a [] (Nat.le_of_not_lt h),
      Option.bind_eq_bind, Option.none_bind]

theorem countP_lt_range (m : Nat) :
    List.countP (fun j => decide (j < 100)) (List.range m) ≤ 100 := by
  have h : List.countP (fun j => decide (j < 100)) (List.range m) = min m 100 := by
    induction m with
    | zero => rfl
    | succ m ih =>
      rw [List.range_succ, List.countP_append, ih]
      by_cases hm : m < 100
      · simp [List.countP_cons, hm]; omega
      · simp [List.countP_cons, hm]; omega
  rw [h]
  exact Nat.min_le_right _ _

theorem length_filter_pos_le (h : Nat → Nat) (m : Nat) (hz : ∀ j, 100 ≤ j → h j = 0) :
    (((List.range m).map h).filter (fun k => decide (0 < k))).length ≤ 100 := by
  rw [← List.countP_eq_length_filter, List.countP_map]
  refine Nat.le_trans (List.countP_mono_left ?_) (countP_lt_range m)
  intro j _ hj
  simp only [Function.comp, decide_eq_true_eq] at hj ⊢
  rcases Nat.lt_or_ge j 100 with hlt | hge
  · exact hlt
  · rw [hz j hge] at hj; exact absurd hj (Nat.lt_irrefl 0)

theorem mem_drop_leafChunks {α : Type} (a : List α) (m : Nat) (c : ReplOutputArray α)
    (hc : c ∈ (leafChunks a).drop m) : ∃ i, m ≤ i ∧ c = chunkAt a 0 100 1 i := by
  obtain ⟨k, hk⟩ := List.mem_iff_getElem?.mp hc
  rw [List.getElem?_drop] at hk
  simp only [leafChunks, List.getElem?_map] at hk
  by_cases hlt : m + k < a.length / 100 + 1
  · rw [List.getElem?_range hlt] at hk
    simp only [Option.map_some', Option.some.injEq] at hk
    exact ⟨m + k, Nat.le_add_right m k, hk.symm⟩
  · rw [List.getElem?_eq_none (by rw [List.length_range]; omega)] at hk
    simp at hk

/-- With at most 1000000 elements every group from the 101st on holds no element. -/
theorem groupItems_eq_zero {α : Type} (a : List α) (hn : a.length ≤ 1000000) (j : Nat)
    (hj : 100 ≤ j) :
    (((chunkAt (leafChunks a) 0 100 100 j).array.map (fun c => c.array.length)).sum) = 0 := by
  apply List.sum_eq_zero
  intro k hk
  simp only [List.mem_map] at hk
  obtain ⟨c, hc, rfl⟩ := hk
  simp only [chunkAt] at hc
  obtain ⟨i, hi, rfl⟩ := mem_drop_leafChunks a (j * 100) c (List.mem_of_mem_take hc)
  simp only [chunkAt, List.length_take, List.length_drop]
  omega

theorem rootChildItems_rootOfGroups {α : Type} (a : List α) :
    ArrayOutput.rootChildItems
        (.rootOfGroups ⟨groupChunks a, arrayLabel a.length, 0, true, some a.length⟩)
      = (List.range ((leafChunks a).length / 100 + 1)).map
          (fun j => ((chunkAt (leafChunks a) 0 100 100 j).array.map
            (fun c => c.array.length)).sum) := by
  simp only [ArrayOutput.rootChildItems, groupChunks, List.map_map]
  rfl

theorem array_root_items_bounded {α : Type} (a : List α) (hn : a.length ≤ 1000000) :
    ∃ out, ReplOutputType.array a = some out ∧
      (out.rootChildItems.filter (fun k => decide (0 < k))).length ≤ 100 := by
  refine ⟨_, array_eq a, ?_⟩
  by_cases h1 : 10000 ≤ a.length
  · rw [if_pos h1, rootChildItems_rootOfGroups]
    exact length_filter_pos_le _ _ (fun j hj => groupItems_eq_zero a hn j hj)
  · by_cases h2 : 100 ≤ a.length
    · rw [if_neg h1, if_pos h2]
      refine Nat.le_trans (List.length_filter_le _ _) ?_
      simp only [ArrayOutput.rootChildItems, List.length_map, length_leafChunks]
      omega
    · rw [if_neg h1, if_neg h2]
      simp [ArrayOutput.rootChildItems]

theorem array_root_count_large {α : Type} (a : List α) (hn : 1000000 < a.length) :
    ∃ out, ReplOutputType.array a = some out ∧ 100 < out.rootChildItems.length := by
  refine ⟨_, array_eq a, ?_⟩
  rw [if_pos (by omega)]
  simp only [ArrayOutput.rootChildItems, List.length_map, length_groupChunks]
  omega

theorem array_root_last_of_1000001 {α : Type} (a : List α) (hn : a.length = 1000001) :
    ∃ out, ReplOutputType.array a = some out ∧
      ¬ (∀ k ∈ out.childCounts, k ≤ 100) ∧
      out.rootChildItems.length = 101 ∧ out.rootChildItems[100]? = some 1 := by
  refine ⟨_, array_eq a, ?_⟩
  have hq : a.length / 100 = 10000 := by omega
  have hlen : (leafChunks a).length = 10001 := by rw [length_leafChunks, hq]
  have hdrop : (leafChunks a).drop (100 * 100) = [chunkAt a 0 100 1 10000] := by
    have hl : leafChunks a
        = (List.range 10000).map (chunkAt a 0 100 1) ++ [chunkAt a 0 100 1 10000] := by
      unfold leafChunks
      rw [hq, List.range_succ, List.map_append]
      rfl
    rw [hl]
    exact List.drop_left' (by rw [List.length_map, List.length_range])
  have hitem : (((chunkAt (leafChunks a) 0 100 100 100).array.map
      (fun c => c.array.length)).sum) = 1 := by
    simp only [chunkAt, hdrop]
    rw [List.take_of_length_le (by simp)]
    simp only [List.map_cons, List.map_nil, List.sum_cons, List.sum_nil, List.length_take,
      List.length_drop, hn]
    omega
  rw [if_pos (by omega)]
  refine ⟨?_, ?_, ?_⟩
  · intro hall
    have h101 := hall (groupChunks a).length (by simp [ArrayOutput.childCounts])
    rw [length_groupChunks] at h101
    omega
  · simp only [ArrayOutput.rootChildItems, List.length_map, length_groupChunks]
    omega
  · rw [rootChildItems_rootOfGroups, hlen, List.getElem?_map,
      List.getElem?_range (by omega), Option.map_some', hitem]

/-- C5, as stated, fails: for an array of 1000001 elements, on a call stack
that holds the 10001 nested calls of `tokenize`, the root returned by
`ReplOutputType.array` has 101 direct children, and the 101st is no empty
trailing group: it holds the last element of the array. -/
theorem arrayWithin_root_exceeds_100 :
    ∃ out, ReplOutputType.arrayWithin 10001 (List.replicate 1000001 (0 : Nat)) = some out ∧
      ¬ (∀ k ∈ out.childCounts, k ≤ 100) ∧
      out.rootChildItems.length = 101 ∧ out.rootChildItems[100]? = some 1 := by
  have hn : (List.replicate 1000001 (0 : Nat)).length = 1000001 := List.length_replicate _ _
  rw [arrayWithin_eq, if_pos (by rw [hn]; omega)]
  exact array_root_last_of_1000001 _ hn

/-- On a call stack that holds only 10000 nested calls the same call raises. -/
theorem arrayWithin_raises_of_1000001 :
    ReplOutputType.arrayWithin 10000 (List.replicate 1000001 (0 : Nat)) = none := by
  have hn : (List.replicate 1000001 (0 : Nat)).length = 1000001 := List.length_replicate _ _
  rw [arrayWithin_eq, if_neg (by rw [hn]; omega)]

/-- C5, amended: `ReplOutputType.array` returns when the recursion of
`tokenize`, one call per 100 elements, fits the call stack. Whenever it
returns, every leaf chunk of the tree holds at most 100 original elements
and every second-tier group holds at most 100 leaf chunks; the root has at
most 100 children that hold any element when the array has at most 1000000
elements, and more than 100 children when it has more, the groups not being
partitioned again. -/
theorem arrayWithin_children_bounded {α : Type} (depth : Nat) (a : List α) :
    (a.length / 100 < depth → ∃ out, ReplOutputType.arrayWithin depth a = some out) ∧
    (∀ out, ReplOutputType.arrayWithin depth a = some out →
      (∀ k ∈ out.belowRootCounts, k ≤ 100) ∧
      (a.length ≤ 1000000 →
        (out.rootChildItems.filter (fun k => decide (0 < k))).length ≤ 100) ∧
      (1000000 < a.length → 100 < out.rootChildItems.length)) := by
  rw [arrayWithin_eq]
  constructor
  · intro h
    rw [if_pos h]
    exact ⟨_, array_eq a⟩
  · intro out hout
    by_cases h : a.length / 100 < depth
    · rw [if_pos h] at hout
      refine ⟨?_, ?_, ?_⟩
      · obtain ⟨out2, h2, hb⟩ := array_children_bounded a
        rw [hout] at h2
        cases h2
        exact hb
      · intro hn
        obtain ⟨out2, h2, hb⟩ := array_root_items_bounded a hn
        rw [hout] at h2
        cases h2
        exact hb
      · intro hn
        obtain ⟨out2, h2, hb⟩ := array_root_count_large a hn
        rw [hout] at h2
        cases h2
        exact hb
    · rw [if_neg h] at hout
      exact Option.noConfusion hout

set_option maxRecDepth 100000 in
theorem arrayWithin_children_bounded_witness :
    ∃ out, ReplOutputType.arrayWithin 10 (List.range 250) = some out ∧
      (∀ k ∈ out.belowRootCounts, k ≤ 100) ∧
      (out.rootChildItems.filter (fun k => decide (0 < k))).length ≤ 100 := by
  obtain ⟨out, hout⟩ := (arrayWithin_children_bounded 10 (List.range 250)).1 (by decide)
  obtain ⟨h1, h2, _⟩ := (arrayWithin_children_bounded 10 (List.range 250)).2 out hout
  exact ⟨out, hout, h1, h2 (by decide)⟩

end ReplOutput
